import Mathlib

/-!
Shallow embedding of the nutsdb transactional commit path (`tx.go`) and proofs
about the spec's claims on it.

Conventions of the embedding:
* Go byte slices and strings become `List Nat` (one `Nat` per byte).
* Go `int64` / `uint64` / `uint32` quantities on this path are all non-negative
  and far from overflow (they are bounded by segment sizes and entry counts),
  so they become `Nat`.
* Go maps become association lists (`List (key × value)`); Go map iteration
  order is modelled as list order.
* External collaborators that live outside `tx.go` (the entry codec, the
  B-tree / B+-tree structures, the TTL manager, the file manager) are modelled
  from the spec at the interface granularity the commit path uses; each such
  definition carries a doc comment starting with `Modelled from the spec:`.
* File I/O cannot fail in the model; the error paths that `tx.go` itself
  decides (`DataSizeExceed`, `not enough file space`, the status-machine
  errors) are all modelled.
-/

namespace NutsDB

/-! ## Basic constants (status bytes, data-structure tags, operation flags)

Modelled from the spec: the numeric values live in an external file of the
repository; the commit path only compares them for equality, so any distinct
values are faithful. `Persistent = 0` per the spec ("ttl (seconds; 0 =
persistent)"). -/

def UnCommitted : Nat := 0

def Committed : Nat := 1

def Persistent : Nat := 0

def DataStructureNone : Nat := 0

def DataStructureTree : Nat := 1

def DataStructureList : Nat := 2

def DataStructureSet : Nat := 3

def DataStructureSortedSet : Nat := 4

def DataSetFlag : Nat := 0

def DataDeleteFlag : Nat := 1

def DataBPTreeBucketDeleteFlag : Nat := 2

def DataSetBucketDeleteFlag : Nat := 3

def DataSortedSetBucketDeleteFlag : Nat := 4

def DataListBucketDeleteFlag : Nat := 5

def DataLPushFlag : Nat := 6

def DataRPushFlag : Nat := 7

def DataExpireListFlag : Nat := 8

/-- `CountFlagEnabled` from the source: the boolean passed through index builders. -/
def CountFlagEnabled : Bool := true

/-- `CountFlagDisabled` from the source. -/
def CountFlagDisabled : Bool := false

/-! ## Errors (`tx.go` lines 39-82) -/

/-- The error identities declared at the top of `tx.go` (plus `ErrDBClosed`,
declared in the DB file, and the literal `errors.New("not enough file space")`
created inside `Tx.writeData`). -/
inductive Err where
  | dataSizeExceed
  | txClosed
  | txNotWritable
  | keyEmpty
  | bucketEmpty
  | notFoundKey
  | cannotCommitAClosedTx
  | cannotRollbackACommittingTx
  | cannotRollbackAClosedTx
  | notFoundBucket
  | txnTooBig
  | dbClosed
  | notEnoughFileSpace
deriving DecidableEq, Repr

/-! ## Transaction status (`tx.go` lines 30-37, 871-905) -/

/-- The three-state transaction FSM: `txStatusRunning`, `txStatusCommitting`,
`txStatusClosed`. The Go code stores it in an `atomic.Value`; sequentially it
is a plain field. -/
inductive TxStatus where
  | running
  | committing
  | closed
deriving DecidableEq, Repr

/-- `EntryIdxMode` option: `HintKeyValAndRAMIdxMode`, `HintKeyAndRAMIdxMode`,
`HintBPTSparseIdxMode` (spec §6 configuration options). -/
inductive EntryIdxMode where
  | hintKeyValAndRAM
  | hintKey
  | hintBPTSparse
deriving DecidableEq, Repr

/-! ## Entries and their encoding -/

/-- Entry metadata: timestamp (ms), ttl (seconds, 0 = persistent), flag,
data-structure tag, sizes, status byte, transaction id (spec §3). -/
structure MetaData where
  keySize : Nat
  valueSize : Nat
  timestamp : Nat
  ttl : Nat
  flag : Nat
  bucketSize : Nat
  txID : Nat
  status : Nat
  ds : Nat
deriving DecidableEq, Repr

/-- An entry: bucket name, key, value and metadata (spec §3). -/
structure Entry where
  key : List Nat
  value : List Nat
  bucket : List Nat
  meta : MetaData
deriving DecidableEq, Repr

/-- Modelled from the spec: the entry codec (component B) is external and
opaque; the framing is a fixed-width header carrying the metadata and status
byte followed by the bucket, key and value bytes (spec §6 "Each entry's
framing carries its own sizes, metadata, and status byte"). Only the length
of the encoding and the fact that it captures the entry's fields at encoding
time matter to the commit path. -/
def Entry.encode (e : Entry) : List Nat :=
  [e.meta.status % 256, e.meta.flag % 256, e.meta.ds % 256,
   e.meta.ttl % 256, e.meta.timestamp % 256, e.meta.txID % 256,
   e.meta.bucketSize % 256, e.meta.keySize % 256, e.meta.valueSize % 256]
  ++ e.bucket ++ e.key ++ e.value

/-- `Entry.Size`: the size in bytes of the encoded entry (external `entry.go`;
equal to the length of the encoding). -/
def Entry.size (e : Entry) : Nat := e.encode.length

/-- Modelled from the spec: `Entry.valid` (external `entry.go`) "validates the
entry (key non-empty, bucket non-empty for user ops)" (spec §4.1). -/
def Entry.valid (e : Entry) : Option Err :=
  if e.key.length = 0 then some .keyEmpty
  else if e.bucket.length = 0 then some .bucketEmpty
  else none

/-- The status stamping `Commit` applies to the last entry before encoding. -/
def stampCommitted (e : Entry) : Entry :=
  { e with meta := { e.meta with status := Committed } }

/-! ## Association-list helpers (Go maps) -/

/-- Lookup in an association list modelling a Go map. -/
def assocGet {α : Type} (l : List (List Nat × α)) (k : List Nat) : Option α :=
  match l with
  | [] => none
  | (k', v) :: t => if k' = k then some v else assocGet t k

/-- Insert/replace in an association list modelling a Go map. -/
def assocPut {α : Type} (l : List (List Nat × α)) (k : List Nat) (v : α) :
    List (List Nat × α) :=
  match l with
  | [] => [(k, v)]
  | (k', v') :: t => if k' = k then (k, v) :: t else (k', v') :: assocPut t k v

/-- Delete from an association list modelling a Go map (`delete(m, k)`). -/
def assocDel {α : Type} (l : List (List Nat × α)) (k : List Nat) :
    List (List Nat × α) :=
  match l with
  | [] => []
  | (k', v') :: t => if k' = k then t else (k', v') :: assocDel t k

/-- Same helpers for maps keyed by file ids (`map[int64]...`). -/
def fidGet {α : Type} (l : List (Nat × α)) (k : Nat) : Option α :=
  match l with
  | [] => none
  | (k', v) :: t => if k' = k then some v else fidGet t k

def fidPut {α : Type} (l : List (Nat × α)) (k : Nat) (v : α) : List (Nat × α) :=
  match l with
  | [] => [(k, v)]
  | (k', v') :: t => if k' = k then (k, v) :: t else (k', v') :: fidPut t k v

/-! ## Byte-string comparison -/

/-- The `compare` function used on keys (external; `bytes.Compare` semantics,
the spec's "key order"): lexicographic byte comparison. -/
def compareKeys : List Nat → List Nat → Ordering
  | [], [] => .eq
  | [], _ :: _ => .lt
  | _ :: _, [] => .gt
  | a :: as, b :: bs => if a < b then .lt else if b < a then .gt else compareKeys as bs

/-! ## Hints and records -/

/-- A `Hint {fileID, key, meta, dataPos}` (spec §3). -/
structure Hint where
  key : List Nat
  fileID : Nat
  meta : MetaData
  dataPos : Nat
deriving DecidableEq, Repr

/-- A `Record`: bucket, value and hint, handed to the index builders. -/
structure Record where
  bucket : List Nat
  v : List Nat
  h : Hint
deriving DecidableEq, Repr

/-! ## Bucket metadata (sparse mode) -/

/-- `BucketMeta`: smallest and largest key ever inserted into a bucket plus
their sizes (spec §3). The Go field `end` is `endK` here (`end` is a Lean
keyword). -/
structure BucketMeta where
  startSize : Nat
  endSize : Nat
  start : List Nat
  endK : List Nat
deriving DecidableEq, Repr

/-- `BPTreeRootIdx {rootOff, fID, startSize, endSize, start, end}` (spec §6). -/
structure BPTreeRootIdx where
  rootOff : Nat
  fID : Nat
  startSize : Nat
  endSize : Nat
  start : List Nat
  endK : List Nat
deriving DecidableEq, Repr

/-! ## External collaborator interfaces -/

/-- Modelled from the spec: a TTL-manager interaction (§4.5): schedule a
delayed delete after `delayMs`, or cancel the schedule for a key. The manager
itself is an external collaborator; the commit path only issues these two
operations, so the model records the issued operations in order. -/
inductive TmOp where
  | add (bucket key : List Nat) (delayMs : Nat)
  | del (bucket key : List Nat)
deriving DecidableEq, Repr

/-- Modelled from the spec: the auxiliary files written by the sparse mode and
the bucket-meta rewrite (§4.3, §4.7, §6). The model records each file write
in order. -/
inductive DiskWrite where
  | bptNodes (fID : Nat)
  | bptRoot (fID : Nat) (root : BPTreeRootIdx)
  | bptTxID (fID : Nat)
  | bptRootTxID (fID : Nat)
  | bucketMetaFile (bucket : List Nat) (meta : BucketMeta)
deriving DecidableEq, Repr

/-- Modelled from the spec: a per-bucket B-tree of key → (value, hint)
(§3 "Ordered map: bucket → B-tree of key → (value?, hint)"); the structure is
external, so it is modelled as an association list with insert-replace and
delete. -/
abbrev BTreeB : Type := List (List Nat × (List Nat × Hint))

/-- B-tree `Insert` (replace an existing key, append a fresh one). -/
def btreePut (t : BTreeB) (k : List Nat) (v : List Nat × Hint) : BTreeB :=
  match t with
  | [] => [(k, v)]
  | (k', v') :: rest => if k' = k then (k, v) :: rest else (k', v') :: btreePut rest k v

/-- B-tree `Delete`. -/
def btreeDel (t : BTreeB) (k : List Nat) : BTreeB :=
  match t with
  | [] => []
  | (k', v') :: rest => if k' = k then rest else (k', v') :: btreeDel rest k

/-- B-tree lookup (used only in statements about the model). -/
def btreeGet (t : BTreeB) (k : List Nat) : Option (List Nat × Hint) :=
  match t with
  | [] => none
  | (k', v') :: rest => if k' = k then some v' else btreeGet rest k

/-- Modelled from the spec: the active B+-tree of sparse mode (external);
the commit path only inserts `(namespacedKey, hint)` pairs into it, so it is
the list of inserted pairs with insert-replace semantics. -/
abbrev BPTreeKV : Type := List (List Nat × Hint)

def bptPut (t : BPTreeKV) (k : List Nat) (v : Hint) : BPTreeKV :=
  match t with
  | [] => [(k, v)]
  | (k', v') :: rest => if k' = k then (k, v) :: rest else (k', v') :: bptPut rest k v

/-- Modelled from the spec: `FirstKey` of the external B+-tree = the smallest
key it holds (`[]` when empty). -/
def bptFirstKey (t : BPTreeKV) : List Nat :=
  match t with
  | [] => []
  | (k, _) :: rest => (rest.map Prod.fst).foldl
      (fun acc k' => if compareKeys acc k' = .gt then k' else acc) k

/-- Modelled from the spec: `LastKey` of the external B+-tree = the largest
key it holds (`[]` when empty). -/
def bptLastKey (t : BPTreeKV) : List Nat :=
  match t with
  | [] => []
  | (k, _) :: rest => (rest.map Prod.fst).foldl
      (fun acc k' => if compareKeys acc k' = .lt then k' else acc) k

/-- A committed-TxID B+-tree (sparse mode): the set of inserted TxID keys,
modelled as the list of keys in insertion order. -/
abbrev TxIdTree : Type := List (List Nat)

def txIdInsert (t : TxIdTree) (k : List Nat) : TxIdTree :=
  if k ∈ t then t else t ++ [k]

/-- Decimal digits of a natural number as ASCII bytes (the
`strconv2.IntToStr` key used by `buildTxIDRootIdx`), via an explicit fuel so
that it reduces structurally. -/
def decimalDigitsAux : Nat → Nat → List Nat
  | 0, _ => []
  | fuel + 1, n => if n < 10 then [n + 48] else decimalDigitsAux fuel (n / 10) ++ [n % 10 + 48]

def natToDecimalKey (n : Nat) : List Nat := decimalDigitsAux (n + 1) n

/-- Modelled from the spec: `getNewKey` namespaces a key as
bucket ⊕ separator ⊕ key (§4.4). -/
def getNewKey (bucket key : List Nat) : List Nat := bucket ++ [35] ++ key

/-! ## The DB context and the transaction object -/

/-- The configuration options the commit path reads (spec §6). `hasErrorHandler`
models `opt.ErrorHandler != nil`. -/
structure Options where
  segmentSize : Nat
  commitBufferSize : Nat
  entryIdxMode : EntryIdxMode
  syncEnable : Bool
  hasErrorHandler : Bool
  maxBatchCount : Nat
  maxBatchSize : Nat
deriving DecidableEq, Repr

/-- The active data file: `fileID`, `writeOff` (next append position) and
`ActualSize` (bytes written) (spec §3 "Segment"). -/
structure DataFile where
  fileID : Nat
  writeOff : Nat
  actualSize : Nat
deriving DecidableEq, Repr

/-- The shared DB state the commit path touches. Per-bucket Set / SortedSet /
List structures are external collaborators; each is modelled from the spec as
bucket → list of applied update records, which is exactly the information the
commit path hands them. -/
structure DB where
  opt : Options
  activeFile : DataFile
  maxFileID : Nat
  /-- segment file contents by fileID -/
  files : List (Nat × List Nat)
  /-- default-mode ordered-map index: bucket → B-tree -/
  btreeIdx : List (List Nat × BTreeB)
  /-- bucket → applied set updates (external structure, op log) -/
  setIdx : List (List Nat × List Record)
  /-- bucket → applied sorted-set updates (external structure, op log) -/
  sortedSetIdx : List (List Nat × List Record)
  /-- bucket → applied list updates (external structure, op log) -/
  listIdx : List (List Nat × List Record)
  /-- sparse mode: active B+-tree -/
  activeBPTreeIdx : BPTreeKV
  /-- sparse mode: namespacedKey → on-disk offset scratch map -/
  bptreeKeyEntryPosMap : List (List Nat × Nat)
  /-- sparse mode: B+-tree of committed TxIDs for the active segment -/
  activeCommittedTxIdsIdx : TxIdTree
  /-- sparse mode: root records of persisted per-segment B+-trees -/
  bptreeRootIdxes : List BPTreeRootIdx
  /-- sparse mode: in-memory bucket-meta cache -/
  bucketMetas : List (List Nat × BucketMeta)
  /-- auxiliary file writes issued, in order -/
  diskWrites : List DiskWrite
  /-- TTL-manager operations issued, in order -/
  tmOps : List TmOp
  keyCount : Nat
  isMerging : Bool
  closed : Bool
deriving DecidableEq, Repr

/-- The transaction object (`tx.go` lines 84-93). `db` is an `Option` because
the Go field is a pointer that `Commit` / `Rollback` clear to `nil`. -/
structure Tx where
  id : Nat
  db : Option DB
  writable : Bool
  status : TxStatus
  pendingWrites : List Entry
  reservedStoreTxIDIdxes : List (Nat × TxIdTree)
  size : Nat
deriving DecidableEq, Repr

/-! ## checkSize, put (`tx.go` lines 196-203, 836-869) -/

/-- `Tx.checkSize`: fails with `ErrTxnTooBig` once the pending-write count
reaches `MaxBatchCount` or the pending byte total reaches `MaxBatchSize`. -/
def Tx.checkSize (tx : Tx) (opt : Options) : Option Err :=
  if tx.pendingWrites.length ≥ opt.maxBatchCount ∨ tx.size ≥ opt.maxBatchSize then
    some .txnTooBig
  else none

/-- `Tx.put`: validates and appends an entry to `pendingWrites`. Returns the
error and the (possibly updated) transaction. -/
def Tx.put (tx : Tx) (bucket key value : List Nat) (ttl : Nat) (flag : Nat)
    (timestamp : Nat) (ds : Nat) : Option Err × Tx :=
  match tx.db with
  | none => (some .txClosed, tx)
  | some _ =>
    if !tx.writable then (some .txNotWritable, tx)
    else
      let meta : MetaData :=
        { keySize := key.length, valueSize := value.length, timestamp := timestamp,
          ttl := ttl, flag := flag, bucketSize := bucket.length, txID := tx.id,
          status := UnCommitted, ds := ds }
      let e : Entry := { key := key, value := value, bucket := bucket, meta := meta }
      match e.valid with
      | some err => (some err, tx)
      | none =>
        (none, { tx with pendingWrites := tx.pendingWrites ++ [e],
                         size := tx.size + e.size })

/-- Modelled from the spec: `sendToWriteCh` (the commit-dispatcher submission,
§4.1/§4.6) lives outside `src/`; per the spec a transaction that crossed
`MaxBatchCount`/`MaxBatchSize` is rejected there with `TxnTooBig` (via
`checkSize`). -/
def Tx.sendToWriteCh (tx : Tx) (opt : Options) : Option Err :=
  tx.checkSize opt

/-! ## writeData (`tx.go` lines 743-770) -/

/-- `WriteAt` semantics on a file content: write `data` at byte offset `off`
(files are pre-sized and zero-filled, spec §6). -/
def writeAt (content : List Nat) (off : Nat) (data : List Nat) : List Nat :=
  (content.take off ++ List.replicate (off - content.length) 0)
    ++ data ++ content.drop (off + data.length)

/-- `Tx.writeData`: append `data` to the active segment at offset
`ActualSize`; fails with "not enough file space" when it would cross
`SegmentSize`; bumps `writeOff` and `ActualSize`. -/
def writeData (db : DB) (data : List Nat) : Except Err DB :=
  if data.length = 0 then .ok db
  else
    let writeOffset := db.activeFile.actualSize
    if db.opt.segmentSize < writeOffset + data.length then .error .notEnoughFileSpace
    else
      let content := (fidGet db.files db.activeFile.fileID).getD []
      .ok { db with
              files := fidPut db.files db.activeFile.fileID (writeAt content writeOffset data),
              activeFile := { db.activeFile with
                                writeOff := db.activeFile.writeOff + data.length,
                                actualSize := db.activeFile.actualSize + data.length } }

/-! ## rotateActiveFile (`tx.go` lines 674-741) -/

/-- `Tx.rotateActiveFile`: bump `MaxFileID`, release the active segment, in
sparse mode persist the active B+-tree and its root record, snapshot the
committed-TxID tree into `tx.ReservedStoreTxIDIdxes`, reset the sparse
scratch state, then install a fresh active segment whose `fileID` is the new
`MaxFileID`. External I/O (`Sync`, `Release`, `WriteNodes`, `Persistence`,
`getDataFile`) cannot fail in the model; `getDataFile` is modelled from the
spec (§4.3: "open a new active segment file of size `SegmentSize`", empty). -/
def rotateActiveFile (reserved : List (Nat × TxIdTree)) (db : DB) :
    List (Nat × TxIdTree) × DB :=
  let fID := db.maxFileID
  let db := { db with maxFileID := db.maxFileID + 1 }
  let (reserved, db) :=
    if db.opt.entryIdxMode = .hintBPTSparse then
      let root : BPTreeRootIdx :=
        { rootOff := 0, fID := fID,
          startSize := (bptFirstKey db.activeBPTreeIdx).length,
          endSize := (bptLastKey db.activeBPTreeIdx).length,
          start := bptFirstKey db.activeBPTreeIdx,
          endK := bptLastKey db.activeBPTreeIdx }
      let snapshot := db.activeCommittedTxIdsIdx
      let db := { db with
        diskWrites := db.diskWrites ++ [.bptNodes fID, .bptRoot fID root],
        bptreeRootIdxes := db.bptreeRootIdxes ++ [root],
        bptreeKeyEntryPosMap := [],
        activeBPTreeIdx := [],
        activeCommittedTxIdsIdx := [] }
      (fidPut reserved fID snapshot, db)
    else (reserved, db)
  let newFile : DataFile := { fileID := db.maxFileID, writeOff := 0, actualSize := 0 }
  (reserved, { db with activeFile := newFile,
                       files := fidPut db.files db.maxFileID [] })

/-! ## Bucket-meta builders (`tx.go` lines 378-443) -/

/-- `Tx.buildTempBucketMetaIdx`: fold the commit's keys into the scratch
bucket meta. The Go zero value with `start == nil` is the `none` case (the
`bucket` argument is unused in the source as well). -/
def buildTempBucketMetaIdx (bucket : List Nat) (key : List Nat)
    (temp : Option BucketMeta) : BucketMeta :=
  let _ := bucket
  let keySize := key.length
  match temp with
  | none => { start := key, endK := key, startSize := keySize, endSize := keySize }
  | some m =>
    let m := if compareKeys m.start key = .gt
             then { m with start := key, startSize := keySize } else m
    let m := if compareKeys m.endK key = .lt
             then { m with endK := key, endSize := keySize } else m
    m

/-- `Tx.buildBucketMetaIdx`: merge the scratch meta into the persisted bucket
meta; when the range is created or widened, rewrite the `bucketMeta-<bucket>`
file and update the in-memory cache (the `key` argument is unused in the
source as well; the `fd.Sync` under `SyncEnable` has no modelled effect). -/
def buildBucketMetaIdx (db : DB) (bucket : List Nat) (key : List Nat)
    (temp : BucketMeta) : DB :=
  let _ := key
  let start := temp.start
  let startSize := start.length
  let endK := temp.endK
  let endSize := endK.length
  match assocGet db.bucketMetas bucket with
  | none =>
    let bm : BucketMeta := { start := start, endK := endK,
                             startSize := startSize, endSize := endSize }
    { db with diskWrites := db.diskWrites ++ [.bucketMetaFile bucket bm],
              bucketMetas := assocPut db.bucketMetas bucket bm }
  | some bm0 =>
    let p1 := if compareKeys bm0.start temp.start = .gt
              then ({ bm0 with start := start, startSize := startSize }, true)
              else (bm0, false)
    let p2 := if compareKeys p1.1.endK temp.endK = .lt
              then ({ p1.1 with endK := endK, endSize := endSize }, true)
              else p1
    if p2.2 then
      { db with diskWrites := db.diskWrites ++ [.bucketMetaFile bucket p2.1],
                bucketMetas := assocPut db.bucketMetas bucket p2.1 }
    else db

/-! ## buildTxIDRootIdx (`tx.go` lines 445-487) -/

/-- `Tx.buildTxIDRootIdx`: record the committed TxID in the active
committed-TxID B+-tree and, for every B+-tree snapshot reserved at a
rotation, insert the TxID and persist the snapshot tree and a fresh root
tree (`BPTTxID-<fID>` / `BPTRootTxID-<fID>`). -/
def buildTxIDRootIdx (reserved : List (Nat × TxIdTree)) (db : DB) (txID : Nat) :
    List (Nat × TxIdTree) × DB :=
  let txIDStr := natToDecimalKey txID
  let db := { db with
    activeCommittedTxIdsIdx := txIdInsert db.activeCommittedTxIdsIdx txIDStr }
  let reserved := reserved.map (fun p => (p.1, txIdInsert p.2 txIDStr))
  let db := { db with
    diskWrites := db.diskWrites ++
      (reserved.map (fun p => [DiskWrite.bptTxID p.1, DiskWrite.bptRootTxID p.1])).flatten }
  (reserved, db)

/-! ## Index builders (`tx.go` lines 489-672) -/

/-- Modelled from the spec: `db.resetRecordByMode` (external) drops the value
from a record unless the index mode retains values in RAM (§3 "In
key-and-RAM mode, values are retained in memory; otherwise values are
dropped"). -/
def resetRecordByMode (opt : Options) (r : Record) : Record :=
  if opt.entryIdxMode ≠ .hintKeyValAndRAM then { r with v := [] } else r

/-- `Tx.buildTreeIdx` (`tx.go` lines 515-568): update the B+-tree (sparse
mode) or the bucket's B-tree plus TTL scheduling (default modes) for a
Tree-structure record. `now` is the commit-time clock in milliseconds
(`time.Now().UnixMilli()`). -/
def buildTreeIdx (now : Nat) (db : DB) (record : Record) (countFlag : Bool) : DB :=
  let _ := countFlag
  let bucket := record.bucket
  let key := record.h.key
  let meta := record.h.meta
  let offset := record.h.dataPos
  if db.opt.entryIdxMode = .hintBPTSparse then
    let newKey := getNewKey bucket key
    let hint : Hint := { fileID := db.activeFile.fileID, key := newKey,
                         meta := meta, dataPos := offset }
    { db with activeBPTreeIdx := bptPut db.activeBPTreeIdx newKey hint }
  else
    let db := if (assocGet db.btreeIdx bucket).isNone
              then { db with btreeIdx := assocPut db.btreeIdx bucket [] } else db
    if meta.flag = DataSetFlag then
      let value := if db.opt.entryIdxMode = .hintKeyValAndRAM then record.v else []
      let insertIt := fun (db : DB) =>
        let hint : Hint := { fileID := db.activeFile.fileID, key := key,
                             meta := meta, dataPos := offset }
        let t := (assocGet db.btreeIdx bucket).getD []
        { db with btreeIdx := assocPut db.btreeIdx bucket (btreePut t key (value, hint)) }
      if meta.ttl ≠ Persistent then
        let expireMs := meta.timestamp + meta.ttl * 1000
        if expireMs < now then db
        else
          insertIt { db with tmOps := db.tmOps ++ [.add bucket key (expireMs - now)] }
      else
        insertIt { db with tmOps := db.tmOps ++ [.del bucket key] }
    else if meta.flag = DataDeleteFlag then
      let t := (assocGet db.btreeIdx bucket).getD []
      { db with tmOps := db.tmOps ++ [.del bucket key],
                btreeIdx := assocPut db.btreeIdx bucket (btreeDel t key) }
    else db

/-- `Tx.buildSetIdx`: hand the record to the external per-bucket Set
structure (ensuring the bucket exists first); the structure itself is
external, so the model appends the applied update to the bucket's op log. -/
def buildSetIdx (db : DB) (record : Record) : DB :=
  let record := resetRecordByMode db.opt record
  let l := (assocGet db.setIdx record.bucket).getD []
  { db with setIdx := assocPut db.setIdx record.bucket (l ++ [record]) }

/-- `Tx.buildSortedSetIdx`: hand the record to the external per-bucket
SortedSet structure; modelled as the bucket's op log. -/
def buildSortedSetIdx (db : DB) (record : Record) : DB :=
  let record := resetRecordByMode db.opt record
  let l := (assocGet db.sortedSetIdx record.bucket).getD []
  { db with sortedSetIdx := assocPut db.sortedSetIdx record.bucket (l ++ [record]) }

/-- Modelled from the spec: `IsExpired(ttl, timestamp)` (external) — "If the
entry's TTL has already expired relative to its timestamp, skip" (§4.4). -/
def isExpired (now ttl timestamp : Nat) : Bool :=
  ttl ≠ Persistent && timestamp + ttl * 1000 < now

/-- `Tx.buildListIdx`: fetch the bucket's external List structure, skip the
record when its TTL already expired, otherwise apply it; modelled as the
bucket's op log. -/
def buildListIdx (now : Nat) (db : DB) (record : Record) : DB :=
  let record := resetRecordByMode db.opt record
  let l := (assocGet db.listIdx record.bucket).getD []
  let db := { db with listIdx := assocPut db.listIdx record.bucket l }
  if isExpired now record.h.meta.ttl record.h.meta.timestamp then db
  else { db with listIdx := assocPut db.listIdx record.bucket (l ++ [record]) }

/-- Modelled from the spec: `db.deleteBucket` (external) removes the
in-memory index of the given data structure for a bucket (§4.2 step 4). -/
def deleteBucket (db : DB) (ds : Nat) (bucket : List Nat) : DB :=
  if ds = DataStructureTree then { db with btreeIdx := assocDel db.btreeIdx bucket }
  else if ds = DataStructureSet then { db with setIdx := assocDel db.setIdx bucket }
  else if ds = DataStructureSortedSet then
    { db with sortedSetIdx := assocDel db.sortedSetIdx bucket }
  else if ds = DataStructureList then { db with listIdx := assocDel db.listIdx bucket }
  else db

/-- `Tx.buildNotDSIdxes` (`tx.go` lines 489-513): after the loop, process
bucket-delete entries and count every entry into `KeyCount`. -/
def buildNotDSIdxes (db : DB) (writes : List Entry) : DB :=
  writes.foldl
    (fun db entry =>
      let bucket := entry.bucket
      let db :=
        if entry.meta.ds = DataStructureNone then
          let db := if entry.meta.flag = DataBPTreeBucketDeleteFlag
                    then deleteBucket db DataStructureTree bucket else db
          let db := if entry.meta.flag = DataSetBucketDeleteFlag
                    then deleteBucket db DataStructureSet bucket else db
          let db := if entry.meta.flag = DataSortedSetBucketDeleteFlag
                    then deleteBucket db DataStructureSortedSet bucket else db
          let db := if entry.meta.flag = DataListBucketDeleteFlag
                    then deleteBucket db DataStructureList bucket else db
          db
        else db
      { db with keyCount := db.keyCount + 1 })
    db

/-! ## The commit loop (`tx.go` lines 228-357) -/

/-- One entry as it was encoded during commit: its index in `pendingWrites`,
its value at encoding time (after any status stamping), the active file it
was encoded against and its final on-disk offset (`writeOff + buff.Len()`). -/
structure EncRec where
  idx : Nat
  entry : Entry
  fileID : Nat
  offset : Nat
deriving DecidableEq, Repr

/-- The state threaded through the commit loop: the shared DB, the
transaction's reserved TxID snapshots, the commit scratch buffer, the scratch
bucket meta and the log of encoded entries. -/
structure CommitSt where
  db : DB
  reserved : List (Nat × TxIdTree)
  buff : List Nat
  bucketMetaTemp : Option BucketMeta
  encoded : List EncRec
deriving DecidableEq, Repr

/-- The scratch-bucket-meta phase of a commit-loop iteration (`tx.go` lines
315-318): in sparse mode fold the entry's key into the scratch meta. -/
def phaseTempMeta (entry : Entry) (s : CommitSt) : CommitSt :=
  if s.db.opt.entryIdxMode = .hintBPTSparse then
    let temp := some (buildTempBucketMetaIdx entry.bucket entry.key s.bucketMetaTemp)
    { s with bucketMetaTemp := temp }
  else s

/-- The last-entry sparse-mode persistence phase (`tx.go` lines 320-332):
record the committed TxID (and flush reserved TxID snapshots) and merge the
scratch bucket meta into the persisted one. -/
def phaseLastSparse (lastIndex i : Nat) (entry : Entry) (s : CommitSt) : CommitSt :=
  if i = lastIndex then
    if s.db.opt.entryIdxMode = .hintBPTSparse then
      let txID := entry.meta.txID
      let rd := buildTxIDRootIdx s.reserved s.db txID
      let s := { s with reserved := rd.1, db := rd.2 }
      let db := buildBucketMetaIdx s.db entry.bucket entry.key
                  (s.bucketMetaTemp.getD ⟨0, 0, [], []⟩)
      { s with db := db }
    else s
  else s

/-- The per-data-structure index-builder dispatch (`tx.go` lines 334-351). -/
def phaseBuilders (now : Nat) (countFlag : Bool) (entry : Entry) (offset : Nat)
    (s : CommitSt) : CommitSt :=
  let hint : Hint := { key := entry.key, fileID := s.db.activeFile.fileID,
                       meta := entry.meta, dataPos := offset }
  let record : Record := { bucket := entry.bucket, v := entry.value, h := hint }
  let s := if entry.meta.ds = DataStructureTree then
             { s with db := buildTreeIdx now s.db record countFlag } else s
  let s := if entry.meta.ds = DataStructureList then
             { s with db := buildListIdx now s.db record } else s
  let s := if entry.meta.ds = DataStructureSet then
             { s with db := buildSetIdx s.db record } else s
  let s := if entry.meta.ds = DataStructureSortedSet then
             { s with db := buildSortedSetIdx s.db record } else s
  s

/-- The index-and-metadata tail of one commit-loop iteration (`tx.go` lines
315-351). `entry` is the entry as encoded (stamped when it was the last
one). -/
def stepMetaAndIdx (now : Nat) (countFlag : Bool) (lastIndex i : Nat) (entry : Entry)
    (offset : Nat) (s : CommitSt) : CommitSt :=
  phaseBuilders now countFlag entry offset
    (phaseLastSparse lastIndex i entry (phaseTempMeta entry s))

/-- The key-position bookkeeping of a commit-loop iteration (`tx.go` lines
296-298): record the namespaced key's final offset for Tree entries (the map
is consumed by the sparse mode at rotation). -/
def withPosMap (entry : Entry) (offset : Nat) (db : DB) : DB :=
  if entry.meta.ds = DataStructureTree then
    { db with bptreeKeyEntryPosMap :=
        assocPut db.bptreeKeyEntryPosMap (getNewKey entry.bucket entry.key) offset }
  else db

/-- One commit-loop iteration after the rotation check (`tx.go` lines
294-351): compute the entry's offset, record the key position for Tree
entries, stamp the last entry `Committed`, encode it into the buffer, flush
the buffer on the last entry, then run the index/metadata tail. -/
def commitStepRest (now : Nat) (countFlag : Bool) (lastIndex i : Nat) (entry : Entry)
    (s : CommitSt) : Option Err × CommitSt :=
  let offset := s.db.activeFile.writeOff + s.buff.length
  let s : CommitSt := { s with db := withPosMap entry offset s.db }
  let entry := if i = lastIndex then stampCommitted entry else entry
  let s : CommitSt :=
    { s with buff := s.buff ++ entry.encode,
             encoded := s.encoded ++ [⟨i, entry, s.db.activeFile.fileID, offset⟩] }
  match (if i = lastIndex then writeData s.db s.buff else .ok s.db) with
  | .error e => (some e, s)
  | .ok db => (none, stepMetaAndIdx now countFlag lastIndex i entry offset { s with db := db })

/-- The body of one iteration of the commit loop (`tx.go` lines 272-352) for
the entry at position `i` (of `lastIndex + 1` total): the oversized-entry
check, the flush-and-rotate step when the entry no longer fits, then
`commitStepRest`. Returns the error (if the iteration aborted the commit)
together with the state as mutated so far — the shared DB keeps the
mutations made before an abort, exactly as in Go. -/
def commitStep (now : Nat) (countFlag : Bool) (lastIndex i : Nat) (entry : Entry)
    (s : CommitSt) : Option Err × CommitSt :=
  let entrySize := entry.size
  if s.db.opt.segmentSize < entrySize then (some .dataSizeExceed, s)
  else
    let rotated : Option Err × CommitSt :=
      if s.db.opt.segmentSize < s.db.activeFile.actualSize + s.buff.length + entrySize then
        match writeData s.db s.buff with
        | .error e => (some e, s)
        | .ok db =>
          let s := { s with db := db, buff := [] }
          let rd := rotateActiveFile s.reserved s.db
          (none, { s with reserved := rd.1, db := rd.2 })
      else (none, s)
    match rotated with
    | (some e, s) => (some e, s)
    | (none, s) => commitStepRest now countFlag lastIndex i entry s

/-- The commit loop over the remaining entries, `i` being the position of the
first of them in `pendingWrites`. -/
def commitLoop (now : Nat) (countFlag : Bool) (lastIndex : Nat) :
    Nat → List Entry → CommitSt → Option Err × CommitSt
  | _, [], s => (none, s)
  | i, e :: rest, s =>
    match commitStep now countFlag lastIndex i e s with
    | (some err, s) => (some err, s)
    | (none, s) => commitLoop now countFlag lastIndex (i + 1) rest s

/-- `Tx.allocCommitBuffer` (`tx.go` lines 359-376): whether the DB-owned
commit buffer is reused (total pending bytes below `CommitBufferSize`) or a
fresh pre-grown buffer is allocated. Either way the buffer starts empty, so
the rest of the model does not depend on the choice. -/
def allocCommitBuffer (tx : Tx) (opt : Options) : Bool :=
  (tx.pendingWrites.foldl (fun acc e => acc + e.size) 0) < opt.commitBufferSize

/-- The events of `Commit`'s deferred cleanup (`tx.go` lines 229-238), in
execution order: the error-handler hook (only on error and only when a
handler is configured), the lock release, then the clearing of `tx.db`,
`tx.pendingWrites` and `tx.ReservedStoreTxIDIdxes`. -/
inductive FinEv where
  | handleErrEv (e : Err)
  | unlockEv
  | clearEv
deriving DecidableEq, Repr

/-- The trace of the deferred cleanup for a given outcome. -/
def deferTrace (err : Option Err) (hasHandler : Bool) : List FinEv :=
  (match err with
   | some e => if hasHandler then [FinEv.handleErrEv e] else []
   | none => []) ++ [FinEv.unlockEv, FinEv.clearEv]

/-- What `Commit` produced when it returned normally: the returned error, the
transaction after the deferred cleanup, the shared DB as mutated, the log of
encoded entries and the cleanup trace. -/
structure CommitOut where
  err : Option Err
  tx : Tx
  db : DB
  encoded : List EncRec
  trace : List FinEv
deriving DecidableEq, Repr

/-- The result of `Commit`: either a normal return or a runtime panic (the
deferred cleanup dereferences `tx.db`, so it panics when `tx.db` is nil). -/
inductive CommitResult where
  | panic
  | done (out : CommitOut)
deriving DecidableEq, Repr

/-- The body of `Tx.Commit` before the deferred cleanup (`tx.go` lines
240-356): status checks, status transitions, the entry loop,
`buildNotDSIdxes`. Returns the error, the transaction (with its `db` pointer
still set, as mutated) and the encoded-entry log. -/
def commitBody (now : Nat) (tx : Tx) : Option Err × Tx × List EncRec :=
  if tx.status = .closed then (some .cannotCommitAClosedTx, tx, [])
  else
    match tx.db with
    | none => (some .dbClosed, { tx with status := .closed }, [])
    | some db =>
      let tx := { tx with status := .committing }
      let writesLen := tx.pendingWrites.length
      if writesLen = 0 then (none, { tx with status := .closed }, [])
      else
        let lastIndex := writesLen - 1
        let countFlag := if db.isMerging then CountFlagDisabled else CountFlagEnabled
        let s0 : CommitSt := { db := db, reserved := tx.reservedStoreTxIDIdxes,
                               buff := [], bucketMetaTemp := none, encoded := [] }
        match commitLoop now countFlag lastIndex 0 tx.pendingWrites s0 with
        | (some err, s) =>
          (some err, { tx with status := .closed, db := some s.db,
                               reservedStoreTxIDIdxes := s.reserved }, s.encoded)
        | (none, s) =>
          let db := buildNotDSIdxes s.db tx.pendingWrites
          (none, { tx with status := .closed, db := some db,
                           reservedStoreTxIDIdxes := s.reserved }, s.encoded)

/-- `Tx.Commit` (`tx.go` lines 228-357): the body followed by the deferred
cleanup. `handleErr` and `unlock` dereference `tx.db`, so the cleanup panics
when the body left `tx.db` nil (it never sets it; only a transaction that
already lost its `db` reaches this). -/
def commit (now : Nat) (tx : Tx) : CommitResult :=
  match commitBody now tx with
  | (err, tx, encoded) =>
    match tx.db with
    | none => .panic
    | some db =>
      .done { err := err,
              tx := { tx with db := none, pendingWrites := [],
                              reservedStoreTxIDIdxes := [] },
              db := db, encoded := encoded,
              trace := deferTrace err db.opt.hasErrorHandler }

/-! ## Rollback and CommitWith (`tx.go` lines 161-194, 772-793) -/

/-- `Tx.Rollback`: nil-db check, then the status dispatch; on success mark
closed, release the lock, clear `db` and `pendingWrites` (the reserved
snapshots are not cleared by `Rollback`). -/
def rollback (tx : Tx) : Option Err × Tx :=
  match tx.db with
  | none => (some .dbClosed, { tx with status := .closed })
  | some _ =>
    if tx.status = .committing then (some .cannotRollbackACommittingTx, tx)
    else if tx.status = .closed then (some .cannotRollbackAClosedTx, tx)
    else (none, { tx with status := .closed, db := none, pendingWrites := [] })

/-- What `Tx.CommitWith` does with the callback: fire it asynchronously with
a result right away, or submit the transaction to the commit dispatcher and
fire the callback with the waiter's result from a background worker. -/
inductive CommitWithAction where
  | asyncCallback (err : Option Err)
  | submitted
deriving DecidableEq, Repr

/-- `Tx.CommitWith`: with no pending writes the user callback is invoked with
success from another goroutine and the transaction is never submitted;
otherwise the transaction goes to the dispatcher (`commitAndSend` /
`sendToWriteCh`, which rejects an over-large transaction). -/
def commitWith (tx : Tx) (opt : Options) : CommitWithAction :=
  if tx.pendingWrites.length = 0 then .asyncCallback none
  else
    match tx.sendToWriteCh opt with
    | some err => .asyncCallback (some err)
    | none => .submitted

/-! ## Concrete fixtures used by witnesses and counterexamples -/

/-- A default-mode configuration. -/
def optDefault : Options :=
  { segmentSize := 200, commitBufferSize := 256, entryIdxMode := .hintKeyValAndRAM,
    syncEnable := false, hasErrorHandler := true, maxBatchCount := 100,
    maxBatchSize := 10000 }

/-- A sparse-mode configuration. -/
def optSparse : Options := { optDefault with entryIdxMode := .hintBPTSparse }

/-- An empty DB over the given options: fresh segment 0, empty indexes. -/
def emptyDB (opt : Options) : DB :=
  { opt := opt, activeFile := { fileID := 0, writeOff := 0, actualSize := 0 },
    maxFileID := 0, files := [(0, [])], btreeIdx := [], setIdx := [],
    sortedSetIdx := [], listIdx := [], activeBPTreeIdx := [],
    bptreeKeyEntryPosMap := [], activeCommittedTxIdsIdx := [],
    bptreeRootIdxes := [], bucketMetas := [], diskWrites := [], tmOps := [],
    keyCount := 0, isMerging := false, closed := false }

/-- Metadata for a fresh put-style entry. -/
def mkMeta (bucket key value : List Nat) (ttl flag timestamp ds txID : Nat) : MetaData :=
  { keySize := key.length, valueSize := value.length, timestamp := timestamp,
    ttl := ttl, flag := flag, bucketSize := bucket.length, txID := txID,
    status := UnCommitted, ds := ds }

/-- A put-style entry. -/
def mkEntry (bucket key value : List Nat) (ttl flag timestamp ds txID : Nat) : Entry :=
  { key := key, value := value, bucket := bucket,
    meta := mkMeta bucket key value ttl flag timestamp ds txID }

/-- A concrete two-entry default-mode transaction (`Put` into bucket "A"). -/
def txAB : Tx :=
  { id := 7, db := some (emptyDB optDefault), writable := true, status := .running,
    pendingWrites :=
      [mkEntry [65] [107] [118] 0 DataSetFlag 5 DataStructureTree 7,
       mkEntry [65] [108] [119] 0 DataSetFlag 5 DataStructureTree 7],
    reservedStoreTxIDIdxes := [], size := 24 }

/-- Iterated segment rotation (for reasoning about sequences of rotations). -/
def rotations : Nat → List (Nat × TxIdTree) × DB → List (Nat × TxIdTree) × DB
  | 0, p => p
  | n + 1, p => rotations n (rotateActiveFile p.1 p.2)

/-- The scratch bucket meta a commit builds from its keys: the fold of
`buildTempBucketMetaIdx` over them, exactly as the commit loop does. -/
def tempOfKeys (bucket : List Nat) (keys : List (List Nat)) : Option BucketMeta :=
  keys.foldl (fun t k => some (buildTempBucketMetaIdx bucket k t)) none

/-- The bucket-meta effect of one committed batch of keys for one bucket: the
scratch fold followed by the persisted-meta merge, as `Commit` performs them
for a transaction whose entries all target `bucket`. -/
def metaBatch (db : DB) (bucket : List Nat) (keys : List (List Nat)) : DB :=
  match tempOfKeys bucket keys with
  | none => db
  | some temp => buildBucketMetaIdx db bucket [] temp

/-- The bucket-meta effect of a sequence of committed batches. -/
def metaRun (db : DB) (bucket : List Nat) (batches : List (List (List Nat))) : DB :=
  batches.foldl (fun db keys => metaBatch db bucket keys) db

/-- Projection: the error a normally-returning `Commit` produced. -/
def CommitResult.errOf : CommitResult → Option (Option Err)
  | .panic => none
  | .done o => some o.err

/-- Projection: the shared DB after a normally-returning `Commit`. -/
def CommitResult.dbOf : CommitResult → Option DB
  | .panic => none
  | .done o => some o.db

/-- The transaction after `Commit`'s deferred cleanup when its status was
already closed on entry: `db`, `pendingWrites`, `ReservedStoreTxIDIdxes`
cleared. -/
def txCleared (tx : Tx) : Tx :=
  { tx with db := none, pendingWrites := [], reservedStoreTxIDIdxes := [] }

/-- The transaction after a full `Commit`: marked closed and cleared. -/
def txClosedCleared (tx : Tx) : Tx :=
  { tx with status := .closed, db := none, pendingWrites := [],
            reservedStoreTxIDIdxes := [] }

/-- A one-pending-write transaction over a `maxBatchCount = 1` configuration:
its batch-count bound is already reached. -/
def optTiny : Options := { optDefault with maxBatchCount := 1 }

def txFull : Tx :=
  { id := 9, db := some (emptyDB optTiny), writable := true, status := .running,
    pendingWrites := [mkEntry [65] [107] [118] 0 DataSetFlag 5 DataStructureTree 9],
    reservedStoreTxIDIdxes := [], size := 12 }

/-- A transaction that already completed a `Commit`: status closed, `db` nil. -/
def txDone : Tx :=
  { id := 3, db := none, writable := true, status := .closed,
    pendingWrites := [], reservedStoreTxIDIdxes := [], size := 0 }

/-- A sparse-mode transaction writing two different buckets: key `[122]`
("z") into bucket `[65]` ("A"), then key `[97]` ("a") into bucket `[66]`
("B"). -/
def txTwoBuckets : Tx :=
  { id := 5, db := some (emptyDB optSparse), writable := true, status := .running,
    pendingWrites :=
      [mkEntry [65] [122] [1] 0 DataSetFlag 5 DataStructureTree 5,
       mkEntry [66] [97] [2] 0 DataSetFlag 5 DataStructureTree 5],
    reservedStoreTxIDIdxes := [], size := 24 }

/-- A Tree record whose expiry time (timestamp + ttl) is exactly the commit
time used in the C10 counterexample: timestamp 0 ms, ttl 1 s, clock 1000 ms. -/
def recBoundary : Record :=
  { bucket := [65], v := [118],
    h := { key := [107], fileID := 0,
           meta := mkMeta [65] [107] [118] 1 DataSetFlag 0 DataStructureTree 7,
           dataPos := 0 } }

/-- A transaction whose second pending entry encodes larger than the
200-byte `SegmentSize`. -/
def txC3 : Tx :=
  { id := 11, db := some (emptyDB optDefault), writable := true, status := .running,
    pendingWrites :=
      [mkEntry [65] [107] [118] 0 DataSetFlag 5 DataStructureTree 11,
       mkEntry [65] [108] (List.replicate 200 0) 0 DataSetFlag 5 DataStructureTree 11],
    reservedStoreTxIDIdxes := [], size := 223 }

/-- An empty running transaction (no pending writes). -/
def txEmptyPending : Tx :=
  { id := 2, db := some (emptyDB optDefault), writable := true, status := .running,
    pendingWrites := [], reservedStoreTxIDIdxes := [], size := 0 }

/-- A normally-returning `Commit` outcome with its cleanup trace. -/
def mkCommitOut (err : Option Err) (txf : Tx) (dbf : DB) (enc : List EncRec) :
    CommitOut :=
  { err := err, tx := txf, db := dbf, encoded := enc,
    trace := deferTrace err dbf.opt.hasErrorHandler }

/-- A writable transaction observed while its status is Committing. -/
def txCommitting : Tx :=
  { id := 4, db := some (emptyDB optDefault), writable := true,
    status := .committing, pendingWrites := [], reservedStoreTxIDIdxes := [],
    size := 0 }

/-- A closed transaction whose `db` pointer is still set (as after a `Begin`
that failed on a closed DB). -/
def txClosedWithDB : Tx :=
  { id := 6, db := some (emptyDB optDefault), writable := true,
    status := .closed, pendingWrites := [], reservedStoreTxIDIdxes := [],
    size := 0 }

/-- The min/max characterization the spec asserts for a persisted bucket
meta: `start` and `end` are keys that were inserted, `start` is below every
inserted key and `end` above, and the stored sizes match. -/
def MetaInv (m : BucketMeta) (keys : List (List Nat)) : Prop :=
  m.start ∈ keys ∧ m.endK ∈ keys ∧
  (∀ k ∈ keys, compareKeys m.start k ≠ .gt) ∧
  (∀ k ∈ keys, compareKeys m.endK k ≠ .lt) ∧
  m.startSize = m.start.length ∧ m.endSize = m.endK.length

end NutsDB

namespace NutsDB

/-! ## Basic lemmas about the building blocks -/

theorem Entry.size_stampCommitted (e : Entry) : (stampCommitted e).size = e.size := by
  simp [stampCommitted, Entry.size, Entry.encode]

theorem writeData_ok (db : DB) (data : List Nat)
    (h : db.activeFile.actualSize + data.length ≤ db.opt.segmentSize) :
    ∃ db', writeData db data = .ok db' ∧
      db'.opt = db.opt ∧
      db'.activeFile.fileID = db.activeFile.fileID ∧
      db'.activeFile.writeOff = db.activeFile.writeOff + data.length ∧
      db'.activeFile.actualSize = db.activeFile.actualSize + data.length := by
  simp only [writeData]
  by_cases h0 : data.length = 0
  · rw [if_pos h0]
    exact ⟨db, rfl, rfl, rfl, by omega, by omega⟩
  · rw [if_neg h0, if_neg (by omega)]
    exact ⟨_, rfl, rfl, rfl, rfl, rfl⟩

theorem rotateActiveFile_spec (r : List (Nat × TxIdTree)) (db : DB) :
    ((rotateActiveFile r db).2).opt = db.opt ∧
    ((rotateActiveFile r db).2).maxFileID = db.maxFileID + 1 ∧
    ((rotateActiveFile r db).2).activeFile =
      { fileID := db.maxFileID + 1, writeOff := 0, actualSize := 0 } := by
  by_cases hm : db.opt.entryIdxMode = EntryIdxMode.hintBPTSparse <;>
    simp [rotateActiveFile, hm]

theorem buildTreeIdx_pres (now : Nat) (db : DB) (r : Record) (cf : Bool) :
    (buildTreeIdx now db r cf).opt = db.opt ∧
    (buildTreeIdx now db r cf).activeFile = db.activeFile := by
  simp only [buildTreeIdx]
  repeat' split
  all_goals simp

theorem buildListIdx_pres (now : Nat) (db : DB) (r : Record) :
    (buildListIdx now db r).opt = db.opt ∧
    (buildListIdx now db r).activeFile = db.activeFile := by
  simp only [buildListIdx]
  repeat' split
  all_goals simp

theorem buildSetIdx_pres (db : DB) (r : Record) :
    (buildSetIdx db r).opt = db.opt ∧ (buildSetIdx db r).activeFile = db.activeFile := by
  simp [buildSetIdx]

theorem buildSortedSetIdx_pres (db : DB) (r : Record) :
    (buildSortedSetIdx db r).opt = db.opt ∧
    (buildSortedSetIdx db r).activeFile = db.activeFile := by
  simp [buildSortedSetIdx]

theorem buildTxIDRootIdx_pres (rs : List (Nat × TxIdTree)) (db : DB) (txID : Nat) :
    ((buildTxIDRootIdx rs db txID).2).opt = db.opt ∧
    ((buildTxIDRootIdx rs db txID).2).activeFile = db.activeFile := by
  simp [buildTxIDRootIdx]

theorem buildBucketMetaIdx_pres (db : DB) (bucket key : List Nat) (temp : BucketMeta) :
    (buildBucketMetaIdx db bucket key temp).opt = db.opt ∧
    (buildBucketMetaIdx db bucket key temp).activeFile = db.activeFile := by
  simp only [buildBucketMetaIdx]
  repeat' split
  all_goals simp

theorem buildTreeIdx_opt (now : Nat) (db : DB) (r : Record) (cf : Bool) :
    (buildTreeIdx now db r cf).opt = db.opt := (buildTreeIdx_pres now db r cf).1

theorem buildTreeIdx_activeFile (now : Nat) (db : DB) (r : Record) (cf : Bool) :
    (buildTreeIdx now db r cf).activeFile = db.activeFile := (buildTreeIdx_pres now db r cf).2

theorem buildListIdx_opt (now : Nat) (db : DB) (r : Record) :
    (buildListIdx now db r).opt = db.opt := (buildListIdx_pres now db r).1

theorem buildListIdx_activeFile (now : Nat) (db : DB) (r : Record) :
    (buildListIdx now db r).activeFile = db.activeFile := (buildListIdx_pres now db r).2

theorem buildSetIdx_opt (db : DB) (r : Record) :
    (buildSetIdx db r).opt = db.opt := (buildSetIdx_pres db r).1

theorem buildSetIdx_activeFile (db : DB) (r : Record) :
    (buildSetIdx db r).activeFile = db.activeFile := (buildSetIdx_pres db r).2

theorem buildSortedSetIdx_opt (db : DB) (r : Record) :
    (buildSortedSetIdx db r).opt = db.opt := (buildSortedSetIdx_pres db r).1

theorem buildSortedSetIdx_activeFile (db : DB) (r : Record) :
    (buildSortedSetIdx db r).activeFile = db.activeFile := (buildSortedSetIdx_pres db r).2

theorem buildTxIDRootIdx_opt (rs : List (Nat × TxIdTree)) (db : DB) (txID : Nat) :
    ((buildTxIDRootIdx rs db txID).2).opt = db.opt := (buildTxIDRootIdx_pres rs db txID).1

theorem buildTxIDRootIdx_activeFile (rs : List (Nat × TxIdTree)) (db : DB) (txID : Nat) :
    ((buildTxIDRootIdx rs db txID).2).activeFile = db.activeFile :=
  (buildTxIDRootIdx_pres rs db txID).2

theorem buildBucketMetaIdx_opt (db : DB) (bucket key : List Nat) (temp : BucketMeta) :
    (buildBucketMetaIdx db bucket key temp).opt = db.opt :=
  (buildBucketMetaIdx_pres db bucket key temp).1

theorem buildBucketMetaIdx_activeFile (db : DB) (bucket key : List Nat) (temp : BucketMeta) :
    (buildBucketMetaIdx db bucket key temp).activeFile = db.activeFile :=
  (buildBucketMetaIdx_pres db bucket key temp).2

theorem withPosMap_activeFile (e : Entry) (off : Nat) (db : DB) :
    (withPosMap e off db).activeFile = db.activeFile := by
  unfold withPosMap; split <;> rfl

theorem withPosMap_opt (e : Entry) (off : Nat) (db : DB) :
    (withPosMap e off db).opt = db.opt := by
  unfold withPosMap; split <;> rfl

theorem phaseTempMeta_pres (e : Entry) (s : CommitSt) :
    (phaseTempMeta e s).db = s.db ∧ (phaseTempMeta e s).buff = s.buff ∧
    (phaseTempMeta e s).encoded = s.encoded ∧ (phaseTempMeta e s).reserved = s.reserved := by
  simp only [phaseTempMeta]
  split <;> simp

theorem phaseLastSparse_pres (last i : Nat) (e : Entry) (s : CommitSt) :
    (phaseLastSparse last i e s).db.opt = s.db.opt ∧
    (phaseLastSparse last i e s).db.activeFile = s.db.activeFile ∧
    (phaseLastSparse last i e s).buff = s.buff ∧
    (phaseLastSparse last i e s).encoded = s.encoded := by
  simp only [phaseLastSparse]
  repeat' split
  all_goals simp [buildBucketMetaIdx_opt, buildBucketMetaIdx_activeFile,
    buildTxIDRootIdx_opt, buildTxIDRootIdx_activeFile]

theorem phaseBuilders_pres (now : Nat) (cf : Bool) (e : Entry) (off : Nat) (s : CommitSt) :
    (phaseBuilders now cf e off s).db.opt = s.db.opt ∧
    (phaseBuilders now cf e off s).db.activeFile = s.db.activeFile ∧
    (phaseBuilders now cf e off s).buff = s.buff ∧
    (phaseBuilders now cf e off s).encoded = s.encoded := by
  simp only [phaseBuilders]
  repeat' split
  all_goals simp [buildTreeIdx_opt, buildTreeIdx_activeFile, buildListIdx_opt,
    buildListIdx_activeFile, buildSetIdx_opt, buildSetIdx_activeFile,
    buildSortedSetIdx_opt, buildSortedSetIdx_activeFile]

theorem stepMetaAndIdx_pres (now : Nat) (cf : Bool) (last i : Nat) (e : Entry)
    (off : Nat) (s : CommitSt) :
    (stepMetaAndIdx now cf last i e off s).db.opt = s.db.opt ∧
    (stepMetaAndIdx now cf last i e off s).db.activeFile = s.db.activeFile ∧
    (stepMetaAndIdx now cf last i e off s).buff = s.buff ∧
    (stepMetaAndIdx now cf last i e off s).encoded = s.encoded := by
  unfold stepMetaAndIdx
  obtain ⟨h1, h2, h3, h4⟩ := phaseTempMeta_pres e s
  obtain ⟨g1, g2, g3, g4⟩ := phaseLastSparse_pres last i e (phaseTempMeta e s)
  obtain ⟨f1, f2, f3, f4⟩ :=
    phaseBuilders_pres now cf e off (phaseLastSparse last i e (phaseTempMeta e s))
  refine ⟨?_, ?_, ?_, ?_⟩
  · rw [f1, g1, h1]
  · rw [f2, g2, h1]
  · rw [f3, g3, h2]
  · rw [f4, g4, h3]

theorem stepMetaAndIdx_opt (now : Nat) (cf : Bool) (last i : Nat) (e : Entry)
    (off : Nat) (s : CommitSt) :
    (stepMetaAndIdx now cf last i e off s).db.opt = s.db.opt :=
  (stepMetaAndIdx_pres now cf last i e off s).1

theorem stepMetaAndIdx_activeFile (now : Nat) (cf : Bool) (last i : Nat) (e : Entry)
    (off : Nat) (s : CommitSt) :
    (stepMetaAndIdx now cf last i e off s).db.activeFile = s.db.activeFile :=
  (stepMetaAndIdx_pres now cf last i e off s).2.1

theorem stepMetaAndIdx_buff (now : Nat) (cf : Bool) (last i : Nat) (e : Entry)
    (off : Nat) (s : CommitSt) :
    (stepMetaAndIdx now cf last i e off s).buff = s.buff :=
  (stepMetaAndIdx_pres now cf last i e off s).2.2.1

theorem stepMetaAndIdx_encoded (now : Nat) (cf : Bool) (last i : Nat) (e : Entry)
    (off : Nat) (s : CommitSt) :
    (stepMetaAndIdx now cf last i e off s).encoded = s.encoded :=
  (stepMetaAndIdx_pres now cf last i e off s).2.2.2

theorem commitStepRest_always (now : Nat) (cf : Bool) (last i : Nat) (e : Entry)
    (s : CommitSt) :
    ∃ r s', commitStepRest now cf last i e s = (r, s') ∧
      s'.encoded = s.encoded ++ [⟨i, (if i = last then stampCommitted e else e),
        s.db.activeFile.fileID, s.db.activeFile.writeOff + s.buff.length⟩] := by
  simp only [commitStepRest]
  by_cases hds : e.meta.ds = DataStructureTree <;> by_cases hlast : i = last <;>
    simp only [hds, hlast, reduceIte, ite_true, ite_false] <;>
    (try split) <;>
    refine ⟨_, _, rfl, ?_⟩ <;>
    simp [stepMetaAndIdx_encoded, stampCommitted, hds, hlast, withPosMap_activeFile]

theorem commitStepRest_ok (now : Nat) (cf : Bool) (last i : Nat) (e : Entry)
    (s : CommitSt)
    (hw : s.db.activeFile.writeOff = s.db.activeFile.actualSize)
    (hroom : s.db.activeFile.actualSize + s.buff.length + e.size ≤ s.db.opt.segmentSize) :
    ∃ s', commitStepRest now cf last i e s = (none, s') ∧
      s'.db.opt = s.db.opt ∧
      s'.encoded = s.encoded ++ [⟨i, (if i = last then stampCommitted e else e),
        s.db.activeFile.fileID, s.db.activeFile.writeOff + s.buff.length⟩] ∧
      (i ≠ last → s'.db.activeFile.writeOff = s'.db.activeFile.actualSize ∧
        s'.db.activeFile.actualSize + s'.buff.length ≤ s.db.opt.segmentSize) := by
  have hsz : (stampCommitted e).encode.length = e.encode.length := by
    simp [stampCommitted, Entry.encode]
  have hroom' : s.db.activeFile.actualSize + s.buff.length + e.encode.length ≤
      s.db.opt.segmentSize := hroom
  have hpmA := withPosMap_activeFile e (s.db.activeFile.writeOff + s.buff.length) s.db
  have hpmO := withPosMap_opt e (s.db.activeFile.writeOff + s.buff.length) s.db
  simp only [commitStepRest]
  by_cases hlast : i = last
  · obtain ⟨db', hWD, hopt, hfid, hwo, has⟩ :=
      writeData_ok (withPosMap e (s.db.activeFile.writeOff + s.buff.length) s.db)
        (s.buff ++ (stampCommitted e).encode)
        (by rw [hpmA, hpmO]; simp only [List.length_append, hsz]; omega)
    simp only [hlast, reduceIte, ite_true, hWD]
    refine ⟨_, rfl, ?_, ?_, ?_⟩
    · simp [stepMetaAndIdx_opt, hopt, hpmO]
    · simp [stepMetaAndIdx_encoded, hpmA]
    · intro h; exact absurd rfl h
  · simp only [hlast, reduceIte, ite_false]
    refine ⟨_, rfl, ?_, ?_, ?_⟩
    · simp [stepMetaAndIdx_opt, hpmO]
    · simp [stepMetaAndIdx_encoded, hpmA, hlast]
    · intro _
      constructor
      · simp [stepMetaAndIdx_activeFile, withPosMap_activeFile, hw]
      · simp only [stepMetaAndIdx_activeFile, stepMetaAndIdx_buff, withPosMap_activeFile]
        simp only [List.length_append]
        omega

theorem writeData_opt (db : DB) (data : List Nat) (db' : DB)
    (h : writeData db data = .ok db') : db'.opt = db.opt := by
  simp only [writeData] at h
  split at h
  · cases h; rfl
  · split at h
    · cases h
    · cases h; rfl

theorem commitStep_oversized (now : Nat) (cf : Bool) (last i : Nat) (e : Entry)
    (s : CommitSt) (h : s.db.opt.segmentSize < e.size) :
    commitStep now cf last i e s = (some .dataSizeExceed, s) := by
  simp only [commitStep]
  rw [if_pos h]

theorem commitStepRest_opt (now : Nat) (cf : Bool) (last i : Nat) (e : Entry)
    (s : CommitSt) (r : Option Err) (s' : CommitSt)
    (h : commitStepRest now cf last i e s = (r, s')) : s'.db.opt = s.db.opt := by
  simp only [commitStepRest] at h
  split at h
  · cases h
    simp [withPosMap_opt]
  · rename_i db' heq
    cases h
    have hki : db'.opt = s.db.opt := by
      rcases Decidable.em (i = last) with hl | hl
      · simp only [hl, reduceIte, ite_true] at heq
        rw [writeData_opt _ _ _ heq]
        simp [withPosMap_opt]
      · simp only [hl, reduceIte, ite_false] at heq
        cases heq
        simp [withPosMap_opt]
    simp [stepMetaAndIdx_opt, hki]

theorem commitStep_opt (now : Nat) (cf : Bool) (last i : Nat) (e : Entry)
    (s : CommitSt) (r : Option Err) (s' : CommitSt)
    (h : commitStep now cf last i e s = (r, s')) : s'.db.opt = s.db.opt := by
  simp only [commitStep] at h
  split at h
  · cases h; rfl
  · split at h
    · rename_i rotSt hrotEq
      split at hrotEq
      · split at hrotEq
        · cases hrotEq; rename_i heqr; cases h; rfl
        · cases hrotEq
      · cases hrotEq
    · rename_i rotSt s1 hrotEq
      have h1 : s1.db.opt = s.db.opt := by
        split at hrotEq
        · split at hrotEq
          · cases hrotEq
          · rename_i db1 heqw
            cases hrotEq
            have : ((rotateActiveFile s.reserved db1).2).opt = db1.opt :=
              (rotateActiveFile_spec s.reserved db1).1
            simp only [this]
            exact writeData_opt _ _ _ heqw
        · cases hrotEq; rfl
      rw [commitStepRest_opt now cf last i e s1 r s' h, h1]

theorem commitStep_ok (now : Nat) (cf : Bool) (last i : Nat) (e : Entry) (s : CommitSt)
    (hsize : e.size ≤ s.db.opt.segmentSize)
    (hw : s.db.activeFile.writeOff = s.db.activeFile.actualSize)
    (hb : s.db.activeFile.actualSize + s.buff.length ≤ s.db.opt.segmentSize) :
    ∃ s' fid off, commitStep now cf last i e s = (none, s') ∧
      s'.db.opt = s.db.opt ∧
      s'.encoded = s.encoded ++ [⟨i, (if i = last then stampCommitted e else e), fid, off⟩] ∧
      off + e.size ≤ s.db.opt.segmentSize ∧
      (i ≠ last → s'.db.activeFile.writeOff = s'.db.activeFile.actualSize ∧
        s'.db.activeFile.actualSize + s'.buff.length ≤ s.db.opt.segmentSize) := by
  simp only [commitStep]
  rw [if_neg (by omega)]
  by_cases hrot : s.db.opt.segmentSize < s.db.activeFile.actualSize + s.buff.length + e.size
  · obtain ⟨db1, hWD, hopt1, hfid1, hwo1, has1⟩ := writeData_ok s.db s.buff (by omega)
    simp only [if_pos hrot, hWD]
    obtain ⟨hropt, hrmax, hraf⟩ := rotateActiveFile_spec s.reserved db1
    obtain ⟨s', hrest, hopt', henc', hinv'⟩ :=
      commitStepRest_ok now cf last i e
        { s with db := (rotateActiveFile s.reserved db1).2, buff := [],
                 reserved := (rotateActiveFile s.reserved db1).1 }
        (by simp [hraf]) (by simp [hraf, hropt, hopt1]; omega)
    rw [hrest]
    refine ⟨s', _, _, rfl, ?_, henc', ?_, ?_⟩
    · rw [hopt']; simp [hropt, hopt1]
    · simp [hraf]; omega
    · intro hne
      obtain ⟨h1, h2⟩ := hinv' hne
      refine ⟨h1, ?_⟩
      simp only [hropt, hopt1] at h2
      exact h2
  · simp only [if_neg hrot]
    obtain ⟨s', hrest, hopt', henc', hinv'⟩ :=
      commitStepRest_ok now cf last i e s hw (by omega)
    rw [hrest]
    exact ⟨s', _, _, rfl, hopt', henc', by omega, hinv'⟩

theorem commitStep_encoded (now : Nat) (cf : Bool) (last i : Nat) (e : Entry)
    (s : CommitSt) (r : Option Err) (s' : CommitSt)
    (h : commitStep now cf last i e s = (r, s')) :
    (s'.encoded = s.encoded ∧ r ≠ none) ∨
    ∃ fid off, s'.encoded = s.encoded ++
      [⟨i, (if i = last then stampCommitted e else e), fid, off⟩] := by
  simp only [commitStep] at h
  split at h
  · cases h; left; exact ⟨rfl, by simp⟩
  · split at h
    · rename_i e1 s1 hrotEq
      split at hrotEq
      · split at hrotEq
        · cases hrotEq; cases h; left; exact ⟨rfl, by simp⟩
        · cases hrotEq
      · cases hrotEq
    · rename_i s1 hrotEq
      have hs1 : s1.encoded = s.encoded := by
        split at hrotEq
        · split at hrotEq
          · cases hrotEq
          · cases hrotEq; rfl
        · cases hrotEq; rfl
      obtain ⟨r2, s2, heq2, henc2⟩ := commitStepRest_always now cf last i e s1
      rw [heq2] at h
      cases h
      right
      exact ⟨_, _, by rw [henc2, hs1]⟩

theorem commitLoop_inv (now : Nat) (cf : Bool) (last : Nat) (seg : Nat)
    (entries : List Entry) (i : Nat) (s : CommitSt)
    (hseg : s.db.opt.segmentSize = seg)
    (hw : s.db.activeFile.writeOff = s.db.activeFile.actualSize)
    (hb : s.db.activeFile.actualSize + s.buff.length ≤ seg)
    (henc : ∀ rec ∈ s.encoded, rec.offset + rec.entry.size ≤ seg)
    (hle : i + entries.length ≤ last + 1) :
    ∀ r s', commitLoop now cf last i entries s = (r, s') →
      ∀ rec ∈ s'.encoded, rec.offset + rec.entry.size ≤ seg := by
  induction entries generalizing i s with
  | nil =>
    intro r s' h rec hrec
    cases h
    exact henc rec hrec
  | cons e rest ih =>
    intro r s' h rec hrec
    by_cases hsz : e.size ≤ s.db.opt.segmentSize
    · obtain ⟨s1, fid, off, hstep, hopt, hencEq, hoffB, hinv⟩ :=
        commitStep_ok now cf last i e s hsz hw (by omega)
      have hstampSz : (if i = last then stampCommitted e else e).size = e.size := by
        split
        · exact Entry.size_stampCommitted e
        · rfl
      have henc1 : ∀ rec ∈ s1.encoded, rec.offset + rec.entry.size ≤ seg := by
        intro rec2 hrec2
        rw [hencEq] at hrec2
        rcases List.mem_append.mp hrec2 with hL | hR
        · exact henc rec2 hL
        · simp only [List.mem_singleton] at hR
          subst hR
          simp only [hstampSz]
          omega
      cases rest with
      | nil =>
        simp only [commitLoop, hstep] at h
        cases h
        exact henc1 rec hrec
      | cons e2 rest2 =>
        simp only [commitLoop, hstep] at h
        have hl : i ≠ last := by
          simp only [List.length_cons] at hle
          omega
        obtain ⟨hw1, hb1⟩ := hinv hl
        exact ih (i + 1) s1 (by rw [hopt, hseg]) hw1 (by omega) henc1
          (by simp only [List.length_cons] at hle ⊢; omega) r s' h rec hrec
    · simp only [commitLoop, commitStep_oversized now cf last i e s (by omega)] at h
      cases h
      exact henc rec hrec

theorem commitLoop_stamps (now : Nat) (cf : Bool) (last : Nat) (tid : Nat)
    (entries : List Entry) (i : Nat) (s : CommitSt)
    (hent : ∀ e ∈ entries, e.meta.status = UnCommitted ∧ e.meta.txID = tid)
    (hprev : ∀ rec ∈ s.encoded, rec.entry.meta.txID = tid ∧
      (rec.entry.meta.status = Committed ↔ rec.idx = last)) :
    ∀ r s', commitLoop now cf last i entries s = (r, s') →
      (∀ rec ∈ s'.encoded, rec.entry.meta.txID = tid ∧
        (rec.entry.meta.status = Committed ↔ rec.idx = last)) ∧
      (r = none → s'.encoded.map EncRec.idx =
        s.encoded.map EncRec.idx ++ List.range' i entries.length) := by
  induction entries generalizing i s with
  | nil =>
    intro r s' h
    cases h
    exact ⟨hprev, fun _ => by simp [List.range']⟩
  | cons e rest ih =>
    intro r s' h
    simp only [commitLoop] at h
    obtain ⟨he1, he2⟩ := hent e (by simp)
    have hstampP : ∀ fid off : Nat,
        (⟨i, (if i = last then stampCommitted e else e), fid, off⟩ : EncRec).entry.meta.txID
          = tid ∧
        ((⟨i, (if i = last then stampCommitted e else e), fid, off⟩ :
          EncRec).entry.meta.status = Committed ↔
         (⟨i, (if i = last then stampCommitted e else e), fid, off⟩ : EncRec).idx = last) := by
      intro fid off
      by_cases hl : i = last <;>
        simp [hl, stampCommitted, he1, he2, UnCommitted, Committed]
    split at h
    · rename_i err s1 hstep
      cases h
      obtain hcase := commitStep_encoded now cf last i e s _ _ hstep
      refine ⟨?_, by simp⟩
      rcases hcase with ⟨hsame, _⟩ | ⟨fid, off, happ⟩
      · rw [hsame]; exact hprev
      · rw [happ]
        intro rec hrec
        rcases List.mem_append.mp hrec with hL | hR
        · exact hprev rec hL
        · simp only [List.mem_singleton] at hR
          subst hR
          exact hstampP fid off
    · rename_i s1 hstep
      obtain hcase := commitStep_encoded now cf last i e s none s1 hstep
      rcases hcase with ⟨_, hne⟩ | ⟨fid, off, happ⟩
      · exact absurd rfl hne
      · have hprev1 : ∀ rec ∈ s1.encoded, rec.entry.meta.txID = tid ∧
            (rec.entry.meta.status = Committed ↔ rec.idx = last) := by
          rw [happ]
          intro rec hrec
          rcases List.mem_append.mp hrec with hL | hR
          · exact hprev rec hL
          · simp only [List.mem_singleton] at hR
            subst hR
            exact hstampP fid off
        obtain ⟨hP, hrange⟩ := ih (i + 1) s1 (fun e2 h2 => hent e2 (by simp [h2]))
          hprev1 r s' h
        refine ⟨hP, fun hr => ?_⟩
        rw [hrange hr, happ]
        simp [List.range']

theorem commitLoop_append_abort (now : Nat) (cf : Bool) (last : Nat)
    (pre : List Entry) (bad : Entry) (rest : List Entry) (i : Nat) (s s' : CommitSt)
    (hpre : commitLoop now cf last i pre s = (none, s'))
    (hbad : s'.db.opt.segmentSize < bad.size) :
    commitLoop now cf last i (pre ++ bad :: rest) s = (some .dataSizeExceed, s') := by
  induction pre generalizing i s with
  | nil =>
    cases hpre
    simp only [List.nil_append, commitLoop,
      commitStep_oversized now cf last i bad s' hbad]
  | cons e pre ih =>
    simp only [commitLoop, List.cons_append] at hpre ⊢
    split at hpre
    · cases hpre
    · rename_i s1 hstep
      exact ih (i + 1) s1 hpre

theorem commitLoop_opt (now : Nat) (cf : Bool) (last : Nat) (entries : List Entry)
    (i : Nat) (s : CommitSt) :
    ∀ r s', commitLoop now cf last i entries s = (r, s') → s'.db.opt = s.db.opt := by
  induction entries generalizing i s with
  | nil => intro r s' h; cases h; rfl
  | cons e rest ih =>
    intro r s' h
    simp only [commitLoop] at h
    split at h
    · rename_i err s1 hstep
      cases h
      exact commitStep_opt now cf last i e s _ _ hstep
    · rename_i s1 hstep
      rw [ih (i + 1) s1 r s' h]
      exact commitStep_opt now cf last i e s _ _ hstep

theorem commit_closed (now : Nat) (tx : Tx) (db0 : DB)
    (hdb : tx.db = some db0) (hst : tx.status = .closed) :
    commit now tx = .done
      { err := some .cannotCommitAClosedTx, tx := txCleared tx, db := db0, encoded := [],
        trace := deferTrace (some .cannotCommitAClosedTx) db0.opt.hasErrorHandler } := by
  unfold commit commitBody
  simp [hst, hdb, txCleared]

theorem commit_empty (now : Nat) (tx : Tx) (db0 : DB)
    (hdb : tx.db = some db0) (hst : tx.status ≠ .closed)
    (hpw : tx.pendingWrites = []) :
    commit now tx = .done
      { err := none, tx := txClosedCleared tx, db := db0, encoded := [],
        trace := deferTrace none db0.opt.hasErrorHandler } := by
  unfold commit commitBody
  simp [hst, hdb, hpw, txClosedCleared]

theorem commit_run_ok (now : Nat) (tx : Tx) (db0 : DB) (s : CommitSt)
    (hdb : tx.db = some db0) (hst : tx.status ≠ .closed)
    (hne : tx.pendingWrites ≠ [])
    (hloop : commitLoop now (if db0.isMerging then CountFlagDisabled else CountFlagEnabled)
      (tx.pendingWrites.length - 1) 0 tx.pendingWrites
      { db := db0, reserved := tx.reservedStoreTxIDIdxes, buff := [],
        bucketMetaTemp := none, encoded := [] } = (none, s)) :
    commit now tx = .done
      { err := none, tx := txClosedCleared tx,
        db := buildNotDSIdxes s.db tx.pendingWrites, encoded := s.encoded,
        trace := deferTrace none
          (buildNotDSIdxes s.db tx.pendingWrites).opt.hasErrorHandler } := by
  unfold commit commitBody
  have hlen : ¬tx.pendingWrites.length = 0 := by
    simpa [List.length_eq_zero] using hne
  simp only [hst, reduceIte, ite_false, hdb, hlen, hloop]
  simp [txClosedCleared]

theorem commit_run_err (now : Nat) (tx : Tx) (db0 : DB) (err : Err) (s : CommitSt)
    (hdb : tx.db = some db0) (hst : tx.status ≠ .closed)
    (hne : tx.pendingWrites ≠ [])
    (hloop : commitLoop now (if db0.isMerging then CountFlagDisabled else CountFlagEnabled)
      (tx.pendingWrites.length - 1) 0 tx.pendingWrites
      { db := db0, reserved := tx.reservedStoreTxIDIdxes, buff := [],
        bucketMetaTemp := none, encoded := [] } = (some err, s)) :
    commit now tx = .done
      { err := some err, tx := txClosedCleared tx, db := s.db, encoded := s.encoded,
        trace := deferTrace (some err) s.db.opt.hasErrorHandler } := by
  unfold commit commitBody
  have hlen : ¬tx.pendingWrites.length = 0 := by
    simpa [List.length_eq_zero] using hne
  simp only [hst, reduceIte, ite_false, hdb, hlen, hloop]
  simp [txClosedCleared]

theorem commitLoop_ok (now : Nat) (cf : Bool) (last : Nat) (entries : List Entry) :
    ∀ (i : Nat) (s : CommitSt),
      (∀ e ∈ entries, e.size ≤ s.db.opt.segmentSize) →
      s.db.activeFile.writeOff = s.db.activeFile.actualSize →
      s.db.activeFile.actualSize + s.buff.length ≤ s.db.opt.segmentSize →
      i + entries.length ≤ last + 1 →
      ∃ s', commitLoop now cf last i entries s = (none, s') := by
  induction entries with
  | nil =>
    intro i s _ _ _ _
    exact ⟨s, rfl⟩
  | cons e rest ih =>
    intro i s hall hw hb hle
    obtain ⟨s1, fid, off, hstep, hopt, henc, hoffB, hinv⟩ :=
      commitStep_ok now cf last i e s (hall e (by simp)) hw hb
    simp only [commitLoop, hstep]
    cases rest with
    | nil => exact ⟨s1, rfl⟩
    | cons e2 r2 =>
      have hl : i ≠ last := by
        simp only [List.length_cons] at hle
        omega
      obtain ⟨hw1, hb1⟩ := hinv hl
      exact ih (i + 1) s1
        (fun e' he' => by rw [hopt]; exact hall e' (by simp [he']))
        hw1 (by rw [hopt]; exact hb1)
        (by simp only [List.length_cons] at hle ⊢; omega)

theorem put_appends_uncommitted (tx tx' : Tx) (bucket key value : List Nat)
    (ttl flag ts ds : Nat)
    (h : Tx.put tx bucket key value ttl flag ts ds = (none, tx')) :
    ∃ e, tx'.pendingWrites = tx.pendingWrites ++ [e] ∧
      e.meta.status = UnCommitted ∧ e.meta.txID = tx.id := by
  simp only [Tx.put] at h
  split at h
  · cases h
  · split at h
    · cases h
    · split at h
      · cases h
      · cases h
        exact ⟨_, rfl, rfl, rfl⟩

/-- C1: for a writable transaction with non-empty `pendingWrites` (whose
entries were built by `put`, i.e. carry status `UnCommitted` and the
transaction's TxID), every entry `Commit` encodes carries the transaction's
TxID, and its status byte is `Committed` exactly when it is the last entry of
`pendingWrites`; on a successful commit the encoded entries are exactly
`pendingWrites[0..n-1]` in order. -/
theorem c1_last_entry_committed (now : Nat) (tx : Tx) (db0 : DB)
    (hdb : tx.db = some db0) (hst : tx.status = .running)
    (hne : tx.pendingWrites ≠ [])
    (hent : ∀ e ∈ tx.pendingWrites, e.meta.status = UnCommitted ∧ e.meta.txID = tx.id) :
    ∃ out, commit now tx = .done out ∧
      (∀ rec ∈ out.encoded, rec.entry.meta.txID = tx.id ∧
        (rec.entry.meta.status = Committed ↔ rec.idx = tx.pendingWrites.length - 1)) ∧
      (out.err = none →
        out.encoded.map EncRec.idx = List.range tx.pendingWrites.length) := by
  have hstne : tx.status ≠ .closed := by rw [hst]; simp
  rcases hloop : commitLoop now
      (if db0.isMerging then CountFlagDisabled else CountFlagEnabled)
      (tx.pendingWrites.length - 1) 0 tx.pendingWrites
      { db := db0, reserved := tx.reservedStoreTxIDIdxes, buff := [],
        bucketMetaTemp := none, encoded := [] } with ⟨r, s⟩
  obtain ⟨hP, hrange⟩ := commitLoop_stamps now
    (if db0.isMerging then CountFlagDisabled else CountFlagEnabled)
    (tx.pendingWrites.length - 1) tx.id tx.pendingWrites 0 _ hent (by simp) r s hloop
  cases r with
  | none =>
    rw [commit_run_ok now tx db0 s hdb hstne hne hloop]
    refine ⟨_, rfl, hP, fun _ => ?_⟩
    rw [hrange rfl]
    simp [List.range_eq_range']
  | some err =>
    rw [commit_run_err now tx db0 err s hdb hstne hne hloop]
    exact ⟨_, rfl, hP, by simp⟩

/-- C1 witness: the two-entry transaction `txAB`. -/
theorem c1_last_entry_committed_witness :
    ∃ out, commit 1000 txAB = .done out ∧
      (∀ rec ∈ out.encoded, rec.entry.meta.txID = txAB.id ∧
        (rec.entry.meta.status = Committed ↔ rec.idx = txAB.pendingWrites.length - 1)) ∧
      (out.err = none →
        out.encoded.map EncRec.idx = List.range txAB.pendingWrites.length) :=
  c1_last_entry_committed 1000 txAB (emptyDB optDefault) rfl rfl (by decide) (by decide)

/-- C2: starting from a consistent active file (`writeOff = ActualSize ≤
SegmentSize`), every entry `Commit` encodes is placed at an offset `o` with
`o + size ≤ SegmentSize` — no entry spans two segment files. -/
theorem c2_no_entry_spans_segments (now : Nat) (tx : Tx) (db0 : DB)
    (hdb : tx.db = some db0)
    (hw : db0.activeFile.writeOff = db0.activeFile.actualSize)
    (hb : db0.activeFile.actualSize ≤ db0.opt.segmentSize) :
    ∃ out, commit now tx = .done out ∧
      ∀ rec ∈ out.encoded, rec.offset + rec.entry.size ≤ db0.opt.segmentSize := by
  by_cases hst : tx.status = .closed
  · rw [commit_closed now tx db0 hdb hst]
    exact ⟨_, rfl, by simp⟩
  by_cases hpw : tx.pendingWrites = []
  · rw [commit_empty now tx db0 hdb hst hpw]
    exact ⟨_, rfl, by simp⟩
  rcases hloop : commitLoop now
      (if db0.isMerging then CountFlagDisabled else CountFlagEnabled)
      (tx.pendingWrites.length - 1) 0 tx.pendingWrites
      { db := db0, reserved := tx.reservedStoreTxIDIdxes, buff := [],
        bucketMetaTemp := none, encoded := [] } with ⟨r, s⟩
  have hlen : 1 ≤ tx.pendingWrites.length := List.length_pos.mpr hpw
  have hB := commitLoop_inv now
    (if db0.isMerging then CountFlagDisabled else CountFlagEnabled)
    (tx.pendingWrites.length - 1) db0.opt.segmentSize tx.pendingWrites 0
    { db := db0, reserved := tx.reservedStoreTxIDIdxes, buff := [],
      bucketMetaTemp := none, encoded := [] }
    rfl hw (by simpa) (by simp) (by simp; omega) r s hloop
  cases r with
  | none =>
    rw [commit_run_ok now tx db0 s hdb hst hpw hloop]
    exact ⟨_, rfl, hB⟩
  | some err =>
    rw [commit_run_err now tx db0 err s hdb hst hpw hloop]
    exact ⟨_, rfl, hB⟩

/-- C2 witness: the two-entry transaction `txAB` over a fresh segment. -/
theorem c2_no_entry_spans_segments_witness :
    ∃ out, commit 1000 txAB = .done out ∧
      ∀ rec ∈ out.encoded, rec.offset + rec.entry.size ≤ (emptyDB optDefault).opt.segmentSize :=
  c2_no_entry_spans_segments 1000 txAB (emptyDB optDefault) rfl rfl (by decide)

/-- C3: when `pendingWrites` splits as `pre ++ bad :: rest` with every entry
of `pre` well-sized, `bad` encoded strictly larger than `SegmentSize`, and a
consistent initial active file, `Commit` returns `DataSizeExceed` and leaves
the shared DB exactly at the state the loop produced from `pre` alone: the
segment files do not grow and no index is updated for entries at or after the
oversized one. -/
theorem c3_oversized_entry_aborts (now : Nat) (tx : Tx) (db0 : DB) (pre : List Entry)
    (bad : Entry) (rest : List Entry)
    (hdb : tx.db = some db0) (hst : tx.status = .running)
    (hsplit : tx.pendingWrites = pre ++ bad :: rest)
    (hpre : ∀ e ∈ pre, e.size ≤ db0.opt.segmentSize)
    (hbad : db0.opt.segmentSize < bad.size)
    (hw : db0.activeFile.writeOff = db0.activeFile.actualSize)
    (hb : db0.activeFile.actualSize ≤ db0.opt.segmentSize) :
    ∃ s', commitLoop now
      (if db0.isMerging then CountFlagDisabled else CountFlagEnabled)
      (tx.pendingWrites.length - 1) 0 pre
      { db := db0, reserved := tx.reservedStoreTxIDIdxes, buff := [],
        bucketMetaTemp := none, encoded := [] } = (none, s') ∧
    commit now tx = .done
      { err := some .dataSizeExceed, tx := txClosedCleared tx, db := s'.db,
        encoded := s'.encoded,
        trace := deferTrace (some .dataSizeExceed) s'.db.opt.hasErrorHandler } := by
  obtain ⟨s', hloopPre⟩ := commitLoop_ok now
    (if db0.isMerging then CountFlagDisabled else CountFlagEnabled)
    (tx.pendingWrites.length - 1) pre 0
    { db := db0, reserved := tx.reservedStoreTxIDIdxes, buff := [],
      bucketMetaTemp := none, encoded := [] }
    hpre hw (by simpa) (by simp [hsplit]; omega)
  refine ⟨s', hloopPre, ?_⟩
  have hopt' : s'.db.opt = db0.opt := commitLoop_opt now _ _ pre 0 _ none s' hloopPre
  have hfull := commitLoop_append_abort now
    (if db0.isMerging then CountFlagDisabled else CountFlagEnabled)
    (tx.pendingWrites.length - 1) pre bad rest 0 _ s' hloopPre
    (by rw [hopt']; exact hbad)
  rw [← hsplit] at hfull
  exact commit_run_err now tx db0 .dataSizeExceed s' hdb (by rw [hst]; simp)
    (by rw [hsplit]; simp) hfull

-- C3 witness: `txC3`, whose second entry is oversized.
set_option maxRecDepth 4000 in
theorem c3_oversized_entry_aborts_witness :
    ∃ s', commitLoop 0
      (if (emptyDB optDefault).isMerging then CountFlagDisabled else CountFlagEnabled)
      (txC3.pendingWrites.length - 1) 0
      [mkEntry [65] [107] [118] 0 DataSetFlag 5 DataStructureTree 11]
      { db := emptyDB optDefault, reserved := txC3.reservedStoreTxIDIdxes, buff := [],
        bucketMetaTemp := none, encoded := [] } = (none, s') ∧
    commit 0 txC3 = .done
      { err := some .dataSizeExceed, tx := txClosedCleared txC3, db := s'.db,
        encoded := s'.encoded,
        trace := deferTrace (some .dataSizeExceed) s'.db.opt.hasErrorHandler } :=
  c3_oversized_entry_aborts 0 txC3 (emptyDB optDefault)
    [mkEntry [65] [107] [118] 0 DataSetFlag 5 DataStructureTree 11]
    (mkEntry [65] [108] (List.replicate 200 0) 0 DataSetFlag 5 DataStructureTree 11)
    [] rfl rfl (by decide) (by decide) (by decide) rfl (by decide)

/-- C6: with empty `pendingWrites`, `Commit` succeeds (nil error) without
touching any segment file or index (the shared DB is returned unchanged and
nothing is encoded), and `CommitWith` resolves the user callback with nil
asynchronously without submitting the transaction to the dispatcher. -/
theorem c6_empty_commit_noop (now : Nat) (tx : Tx) (db0 : DB) (opt : Options)
    (hdb : tx.db = some db0) (hst : tx.status = .running)
    (hpw : tx.pendingWrites = []) :
    commit now tx = .done
      { err := none, tx := txClosedCleared tx, db := db0, encoded := [],
        trace := deferTrace none db0.opt.hasErrorHandler } ∧
    commitWith tx opt = .asyncCallback none := by
  refine ⟨commit_empty now tx db0 hdb (by rw [hst]; simp) hpw, ?_⟩
  simp [commitWith, hpw]

-- C6 witness: an empty running transaction.
theorem c6_empty_commit_noop_witness :
    commit 0 txEmptyPending = .done
      { err := none, tx := txClosedCleared txEmptyPending,
        db := emptyDB optDefault, encoded := [],
        trace := deferTrace none (emptyDB optDefault).opt.hasErrorHandler } ∧
    commitWith txEmptyPending optDefault = .asyncCallback none :=
  c6_empty_commit_noop 0 txEmptyPending (emptyDB optDefault) optDefault rfl rfl rfl

/-- C7: for any transaction whose `db` is still set, `Commit` returns
normally and its deferred cleanup runs in order: on a non-nil error the
configured error handler (if any) is invoked with that error before the lock
release, then the lock is released, then `tx.db`, `tx.pendingWrites` and
`tx.ReservedStoreTxIDIdxes` are cleared — on every exit, success or error. -/
theorem c7_error_hook_and_cleanup (now : Nat) (tx : Tx) (db0 : DB)
    (hdb : tx.db = some db0) :
    ∃ out, commit now tx = .done out ∧
      (∀ e, out.err = some e → out.db.opt.hasErrorHandler = true →
        out.trace = [.handleErrEv e, .unlockEv, .clearEv]) ∧
      (∀ e, out.err = some e → out.db.opt.hasErrorHandler = false →
        out.trace = [.unlockEv, .clearEv]) ∧
      (out.err = none → out.trace = [.unlockEv, .clearEv]) ∧
      out.tx.db = none ∧ out.tx.pendingWrites = [] ∧
      out.tx.reservedStoreTxIDIdxes = [] := by
  have key : ∀ (err : Option Err) (dbf : DB) (txf : Tx) (enc : List EncRec),
      commit now tx = .done (mkCommitOut err txf dbf enc) →
      txf.db = none → txf.pendingWrites = [] → txf.reservedStoreTxIDIdxes = [] →
      ∃ out, commit now tx = .done out ∧
        (∀ e, out.err = some e → out.db.opt.hasErrorHandler = true →
          out.trace = [.handleErrEv e, .unlockEv, .clearEv]) ∧
        (∀ e, out.err = some e → out.db.opt.hasErrorHandler = false →
          out.trace = [.unlockEv, .clearEv]) ∧
        (out.err = none → out.trace = [.unlockEv, .clearEv]) ∧
        out.tx.db = none ∧ out.tx.pendingWrites = [] ∧
        out.tx.reservedStoreTxIDIdxes = [] := by
    intro err dbf txf enc hc h1 h2 h3
    refine ⟨_, hc, ?_, ?_, ?_, h1, h2, h3⟩
    · intro e he hh
      simp only [mkCommitOut] at he hh ⊢
      cases he
      simp [deferTrace, hh]
    · intro e he hh
      simp only [mkCommitOut] at he hh ⊢
      cases he
      simp [deferTrace, hh]
    · intro he
      simp only [mkCommitOut] at he ⊢
      cases he
      simp [deferTrace]
  by_cases hst : tx.status = .closed
  · exact key _ _ _ _ (commit_closed now tx db0 hdb hst) rfl rfl rfl
  by_cases hpw : tx.pendingWrites = []
  · exact key _ _ _ _ (commit_empty now tx db0 hdb hst hpw) rfl rfl rfl
  rcases hloop : commitLoop now
      (if db0.isMerging then CountFlagDisabled else CountFlagEnabled)
      (tx.pendingWrites.length - 1) 0 tx.pendingWrites
      { db := db0, reserved := tx.reservedStoreTxIDIdxes, buff := [],
        bucketMetaTemp := none, encoded := [] } with ⟨r, s⟩
  cases r with
  | none => exact key _ _ _ _ (commit_run_ok now tx db0 s hdb hst hpw hloop) rfl rfl rfl
  | some err => exact key _ _ _ _ (commit_run_err now tx db0 err s hdb hst hpw hloop) rfl rfl rfl

-- C7 witness: the two-entry transaction txAB.
theorem c7_error_hook_and_cleanup_witness :
    ∃ out, commit 1000 txAB = .done out ∧
      (∀ e, out.err = some e → out.db.opt.hasErrorHandler = true →
        out.trace = [.handleErrEv e, .unlockEv, .clearEv]) ∧
      (∀ e, out.err = some e → out.db.opt.hasErrorHandler = false →
        out.trace = [.unlockEv, .clearEv]) ∧
      (out.err = none → out.trace = [.unlockEv, .clearEv]) ∧
      out.tx.db = none ∧ out.tx.pendingWrites = [] ∧
      out.tx.reservedStoreTxIDIdxes = [] :=
  c7_error_hook_and_cleanup 1000 txAB (emptyDB optDefault) rfl

/-- C8: every rotation increments `MaxFileID` by exactly one and installs an
active segment whose `fileID` equals the new `MaxFileID`; consequently, over
any sequence of rotations starting from a state where the active segment
carries `MaxFileID`, the active `fileID` is strictly increasing (no fileID is
reused). -/
theorem c8_rotation_increments_fileid :
    (∀ (r : List (Nat × TxIdTree)) (db : DB),
      ((rotateActiveFile r db).2).maxFileID = db.maxFileID + 1 ∧
      ((rotateActiveFile r db).2).activeFile.fileID =
        ((rotateActiveFile r db).2).maxFileID) ∧
    (∀ (p : List (Nat × TxIdTree) × DB) (n m : Nat),
      p.2.activeFile.fileID = p.2.maxFileID → n < m →
      ((rotations n p).2).activeFile.fileID < ((rotations m p).2).activeFile.fileID) := by
  have hone : ∀ (r : List (Nat × TxIdTree)) (db : DB),
      ((rotateActiveFile r db).2).maxFileID = db.maxFileID + 1 ∧
      ((rotateActiveFile r db).2).activeFile.fileID =
        ((rotateActiveFile r db).2).maxFileID := by
    intro r db
    obtain ⟨_, h2, h3⟩ := rotateActiveFile_spec r db
    refine ⟨h2, ?_⟩
    rw [h2, h3]
  have hiter : ∀ (n : Nat) (p : List (Nat × TxIdTree) × DB),
      p.2.activeFile.fileID = p.2.maxFileID →
      ((rotations n p).2).activeFile.fileID = p.2.maxFileID + n ∧
      ((rotations n p).2).maxFileID = p.2.maxFileID + n := by
    intro n
    induction n with
    | zero => intro p hp; exact ⟨hp, rfl⟩
    | succ k ih =>
      intro p hp
      obtain ⟨hmax, hfid⟩ := hone p.1 p.2
      have hstep : (rotateActiveFile p.1 p.2).2.activeFile.fileID =
          (rotateActiveFile p.1 p.2).2.maxFileID := hfid
      obtain ⟨ih1, ih2⟩ := ih (rotateActiveFile p.1 p.2) hstep
      constructor
      · show ((rotations k (rotateActiveFile p.1 p.2)).2).activeFile.fileID = _
        rw [ih1, hmax]
        omega
      · show ((rotations k (rotateActiveFile p.1 p.2)).2).maxFileID = _
        rw [ih2, hmax]
        omega
  refine ⟨hone, fun p n m hp hnm => ?_⟩
  obtain ⟨hn, _⟩ := hiter n p hp
  obtain ⟨hm, _⟩ := hiter m p hp
  rw [hn, hm]
  omega

-- C8 witness: the fresh DB, zero vs one rotations.
theorem c8_rotation_increments_fileid_witness :
    ((rotateActiveFile [] (emptyDB optDefault)).2).maxFileID =
      (emptyDB optDefault).maxFileID + 1 ∧
    ((rotations 0 ([], emptyDB optDefault)).2).activeFile.fileID <
      ((rotations 1 ([], emptyDB optDefault)).2).activeFile.fileID :=
  ⟨(c8_rotation_increments_fileid.1 [] (emptyDB optDefault)).1,
   c8_rotation_increments_fileid.2 ([], emptyDB optDefault) 0 1 rfl (by decide)⟩

/-- C4 counterexample: `txFull` already reached `maxBatchCount = 1`
(`checkSize` fails), yet a further `put` succeeds (returns nil) and grows
`pendingWrites` — the write operation itself does not fail with TxnTooBig and
does not leave the transaction unchanged. -/
theorem c4_counterexample :
    Tx.checkSize txFull optTiny = some .txnTooBig ∧
    (Tx.put txFull [65] [109] [120] 0 DataSetFlag 5 DataStructureTree).1 = none ∧
    (Tx.put txFull [65] [109] [120] 0 DataSetFlag 5
      DataStructureTree).2.pendingWrites.length = 2 := by
  decide

/-- C4 (amended): `checkSize` succeeds exactly while
`len(pendingWrites) < MaxBatchCount ∧ size < MaxBatchSize`; once either bound
is reached the commit-submission path (`sendToWriteCh`, spec-modelled)
rejects the transaction with TxnTooBig, so `CommitWith` never submits it;
`put` itself never returns TxnTooBig (it appends without checking the
bounds). -/
theorem c4_batch_bounds :
    (∀ (tx : Tx) (opt : Options), tx.checkSize opt = none ↔
      (tx.pendingWrites.length < opt.maxBatchCount ∧ tx.size < opt.maxBatchSize)) ∧
    (∀ (tx : Tx) (opt : Options),
      opt.maxBatchCount ≤ tx.pendingWrites.length ∨ opt.maxBatchSize ≤ tx.size →
      tx.sendToWriteCh opt = some .txnTooBig ∧ commitWith tx opt ≠ .submitted) ∧
    (∀ (tx : Tx) (bucket key value : List Nat) (ttl flag ts ds : Nat),
      (Tx.put tx bucket key value ttl flag ts ds).1 ≠ some .txnTooBig) := by
  refine ⟨?_, ?_, ?_⟩
  · intro tx opt
    unfold Tx.checkSize
    split
    · rename_i hge
      constructor
      · intro h; cases h
      · intro ⟨h1, h2⟩; omega
    · rename_i hlt
      push_neg at hlt
      exact ⟨fun _ => ⟨by omega, by omega⟩, fun _ => rfl⟩
  · intro tx opt hbound
    have hcs : tx.checkSize opt = some .txnTooBig := by
      unfold Tx.checkSize
      rw [if_pos (by omega)]
    refine ⟨hcs, ?_⟩
    unfold commitWith
    split
    · simp
    · rw [Tx.sendToWriteCh, hcs]
      simp
  · intro tx bucket key value ttl flag ts ds
    simp only [Tx.put]
    split
    · simp
    · split
      · simp
      · split
        · rename_i err heq
          simp only [Entry.valid] at heq
          split at heq
          · cases heq; simp
          · split at heq
            · cases heq; simp
            · cases heq
        · simp

-- C4 witness: txFull over the maxBatchCount = 1 configuration.
theorem c4_batch_bounds_witness :
    Tx.sendToWriteCh txFull optTiny = some .txnTooBig ∧
    commitWith txFull optTiny ≠ .submitted ∧
    (Tx.checkSize txEmptyPending optDefault = none ↔
      (txEmptyPending.pendingWrites.length < optDefault.maxBatchCount ∧
       txEmptyPending.size < optDefault.maxBatchSize)) :=
  ⟨(c4_batch_bounds.2.1 txFull optTiny (by decide)).1,
   (c4_batch_bounds.2.1 txFull optTiny (by decide)).2,
   c4_batch_bounds.1 txEmptyPending optDefault⟩

/-- C5 counterexample: after a completed `Commit` the transaction has status
Closed and a nil `db`; a repeated `Rollback` returns DBClosed — not
CannotRollbackAClosedTx — and a repeated `Commit` panics in its deferred
cleanup (which dereferences the nil `db`) instead of returning
CannotCommitAClosedTx. -/
theorem c5_counterexample :
    (rollback txDone).1 = some .dbClosed ∧
    (rollback txDone).1 ≠ some .cannotRollbackAClosedTx ∧
    commit 0 txDone = .panic := by
  decide

/-- C5 (amended): `Rollback` succeeds only from Running with a non-nil `db`
(closing the transaction and clearing `db` and `pendingWrites`); from
Committing it returns CannotRollbackACommittingTx and from Closed (with `db`
still set) CannotRollbackAClosedTx, in both cases leaving the transaction
untouched; with a nil `db` it returns DBClosed. A repeated `Commit` on a
closed transaction whose `db` is still set returns CannotCommitAClosedTx as
its error value, but its deferred cleanup still clears the transaction's
fields; with a nil `db` it panics. -/
theorem c5_rollback_commit_dispatch :
    (∀ (tx : Tx) (db0 : DB), tx.db = some db0 → tx.status = .committing →
      rollback tx = (some .cannotRollbackACommittingTx, tx)) ∧
    (∀ (tx : Tx) (db0 : DB), tx.db = some db0 → tx.status = .closed →
      rollback tx = (some .cannotRollbackAClosedTx, tx)) ∧
    (∀ (tx : Tx) (db0 : DB), tx.db = some db0 → tx.status = .running →
      rollback tx = (none, { tx with status := .closed, db := none, pendingWrites := [] })) ∧
    (∀ tx : Tx, tx.db = none →
      rollback tx = (some .dbClosed, { tx with status := .closed })) ∧
    (∀ (now : Nat) (tx : Tx) (db0 : DB), tx.db = some db0 → tx.status = .closed →
      commit now tx = .done (mkCommitOut (some .cannotCommitAClosedTx)
        (txCleared tx) db0 [])) ∧
    (∀ (now : Nat) (tx : Tx), tx.db = none → tx.status = .closed →
      commit now tx = .panic) := by
  refine ⟨?_, ?_, ?_, ?_, ?_, ?_⟩
  · intro tx db0 hdb hst
    simp [rollback, hdb, hst]
  · intro tx db0 hdb hst
    simp [rollback, hdb, hst]
  · intro tx db0 hdb hst
    simp [rollback, hdb, hst]
  · intro tx hdb
    simp [rollback, hdb]
  · intro now tx db0 hdb hst
    exact commit_closed now tx db0 hdb hst
  · intro now tx hdb hst
    unfold commit commitBody
    simp [hst, hdb]

-- C5 witness: the concrete committing / closed-with-db transactions.
theorem c5_rollback_commit_dispatch_witness :
    rollback txCommitting = (some .cannotRollbackACommittingTx, txCommitting) ∧
    rollback txClosedWithDB = (some .cannotRollbackAClosedTx, txClosedWithDB) ∧
    commit 0 txClosedWithDB = .done (mkCommitOut (some .cannotCommitAClosedTx)
      (txCleared txClosedWithDB) (emptyDB optDefault) []) := by
  obtain ⟨h1, h2, h3, h4, h5, h6⟩ := c5_rollback_commit_dispatch
  exact ⟨h1 txCommitting (emptyDB optDefault) rfl rfl,
         h2 txClosedWithDB (emptyDB optDefault) rfl rfl,
         h5 0 txClosedWithDB (emptyDB optDefault) rfl rfl⟩

/-- C10 counterexample: a Tree record with flag Set, ttl 1 s, timestamp 0,
committed at clock 1000 ms: its expiry time (1000 ms) is not after the commit
time, yet `buildTreeIdx` inserts the key into the bucket's B-tree and
schedules it with the TTL manager (delay 0). -/
theorem c10_counterexample :
    recBoundary.h.meta.timestamp + recBoundary.h.meta.ttl * 1000 ≤ 1000 ∧
    recBoundary.h.meta.ttl ≠ Persistent ∧
    btreeGet ((assocGet (buildTreeIdx 1000 (emptyDB optDefault) recBoundary
      CountFlagEnabled).btreeIdx [65]).getD []) [107] ≠ none ∧
    (buildTreeIdx 1000 (emptyDB optDefault) recBoundary
      CountFlagEnabled).tmOps = [.add [65] [107] 0] := by
  decide

/-- C10 (amended): in non-sparse modes, a Set-flag Tree record with
non-persistent TTL whose expiry time (timestamp + ttl) is STRICTLY before the
commit clock is neither inserted into the bucket's B-tree nor scheduled with
the TTL manager: `buildTreeIdx` leaves the DB unchanged except for ensuring
the bucket's (possibly empty) B-tree exists. At expiry == clock the entry is
still indexed and scheduled (see the counterexample). -/
theorem c10_expired_set_skipped (now : Nat) (db : DB) (r : Record) (cf : Bool)
    (hmode : db.opt.entryIdxMode ≠ .hintBPTSparse)
    (hflag : r.h.meta.flag = DataSetFlag)
    (httl : r.h.meta.ttl ≠ Persistent)
    (hexp : r.h.meta.timestamp + r.h.meta.ttl * 1000 < now) :
    buildTreeIdx now db r cf =
      (if (assocGet db.btreeIdx r.bucket).isNone
       then { db with btreeIdx := assocPut db.btreeIdx r.bucket [] } else db) := by
  unfold buildTreeIdx
  rw [if_neg hmode]
  by_cases hens : (assocGet db.btreeIdx r.bucket).isNone <;>
    simp [hens, hflag, httl, hexp]

-- C10 witness: recBoundary at clock 1001 ms (expiry 1000 ms strictly before).
theorem c10_expired_set_skipped_witness :
    buildTreeIdx 1001 (emptyDB optDefault) recBoundary CountFlagEnabled =
      (if (assocGet (emptyDB optDefault).btreeIdx recBoundary.bucket).isNone
       then { emptyDB optDefault with
                btreeIdx := assocPut (emptyDB optDefault).btreeIdx recBoundary.bucket [] }
       else emptyDB optDefault) :=
  c10_expired_set_skipped 1001 (emptyDB optDefault) recBoundary CountFlagEnabled
    (by decide) (by decide) (by decide) (by decide)

theorem compareKeys_self (a : List Nat) : compareKeys a a = .eq := by
  induction a with
  | nil => rfl
  | cons x xs ih => simp [compareKeys, ih]

theorem compareKeys_swap (a b : List Nat) :
    compareKeys b a = (compareKeys a b).swap := by
  induction a generalizing b with
  | nil => cases b <;> rfl
  | cons x xs ih =>
    cases b with
    | nil => rfl
    | cons y ys =>
      simp only [compareKeys]
      by_cases h1 : x < y
      · simp [h1, Nat.lt_asymm h1, Ordering.swap]
      · by_cases h2 : y < x
        · simp [h1, h2, Ordering.swap]
        · simp [h1, h2, ih ys]

theorem compareKeys_le_trans {a b c : List Nat}
    (h1 : compareKeys a b ≠ .gt) (h2 : compareKeys b c ≠ .gt) :
    compareKeys a c ≠ .gt := by
  induction a generalizing b c with
  | nil => cases c <;> simp [compareKeys]
  | cons x xs ih =>
    cases b with
    | nil => simp [compareKeys] at h1
    | cons y ys =>
      cases c with
      | nil => simp [compareKeys] at h2
      | cons z zs =>
        simp only [compareKeys] at h1 h2 ⊢
        rcases Nat.lt_trichotomy x y with hxy | hxy | hxy
        · -- x < y ≤ z
          rw [if_pos hxy] at h1
          rcases Nat.lt_trichotomy y z with hyz | hyz | hyz
          · rw [if_pos (by omega)]; simp
          · subst hyz; rw [if_pos hxy]; simp
          · rw [if_neg (by omega), if_pos hyz] at h2; simp at h2
        · subst hxy
          rw [if_neg (by omega), if_neg (by omega)] at h1
          rcases Nat.lt_trichotomy x z with hxz | hxz | hxz
          · rw [if_pos hxz]; simp
          · subst hxz
            rw [if_neg (by omega), if_neg (by omega)] at h2 ⊢
            exact ih h1 h2
          · rw [if_neg (by omega), if_pos hxz] at h2; simp at h2
        · rw [if_neg (by omega), if_pos hxy] at h1; simp at h1

theorem compareKeys_ge_trans {a b c : List Nat}
    (h1 : compareKeys a b ≠ .lt) (h2 : compareKeys b c ≠ .lt) :
    compareKeys a c ≠ .lt := by
  intro hac
  have h1' : compareKeys b a ≠ .gt := by
    rw [compareKeys_swap]
    cases hab : compareKeys a b <;> simp [Ordering.swap] <;> simp [hab] at h1 ⊢
  have h2' : compareKeys c b ≠ .gt := by
    rw [compareKeys_swap]
    cases hbc : compareKeys b c <;> simp [Ordering.swap] <;> simp [hbc] at h2 ⊢
  have := compareKeys_le_trans h2' h1'
  rw [compareKeys_swap, hac] at this
  simp [Ordering.swap] at this

theorem compareKeys_gt_le {a b : List Nat} (h : compareKeys a b = .gt) :
    compareKeys b a ≠ .gt := by
  rw [compareKeys_swap, h]
  simp [Ordering.swap]

theorem compareKeys_lt_ge {a b : List Nat} (h : compareKeys a b = .lt) :
    compareKeys b a ≠ .lt := by
  rw [compareKeys_swap, h]
  simp [Ordering.swap]

theorem assocGet_assocPut_self {α : Type} (l : List (List Nat × α))
    (k : List Nat) (v : α) : assocGet (assocPut l k v) k = some v := by
  induction l with
  | nil => simp [assocPut, assocGet]
  | cons p t ih =>
    obtain ⟨k', v'⟩ := p
    by_cases hk : k' = k
    · simp [assocPut, assocGet, hk]
    · simp [assocPut, assocGet, hk, ih]

theorem compareKeys_le_refl (a : List Nat) : compareKeys a a ≠ .gt := by
  rw [compareKeys_self]; simp

theorem compareKeys_ge_refl (a : List Nat) : compareKeys a a ≠ .lt := by
  rw [compareKeys_self]; simp

theorem buildTempBucketMetaIdx_step (bucket k : List Nat) (t0 : BucketMeta)
    (K0 : List (List Nat)) (h : MetaInv t0 K0) :
    MetaInv (buildTempBucketMetaIdx bucket k (some t0)) (K0 ++ [k]) := by
  obtain ⟨hsm, hem, hsle, hege, hss, hes⟩ := h
  simp only [buildTempBucketMetaIdx]
  by_cases c1 : compareKeys t0.start k = .gt <;>
    by_cases c2 : compareKeys t0.endK k = .lt <;>
    simp only [c1, c2, reduceIte, ite_true, ite_false] <;>
    refine ⟨?_, ?_, ?_, ?_, ?_, ?_⟩ <;>
    try simp_all
  all_goals
    intro k' hk'
    rcases hk' with hK | hk0
  all_goals
    try subst hk0
  all_goals
    first
    | exact compareKeys_le_trans (compareKeys_gt_le c1) (hsle k' hK)
    | exact compareKeys_ge_trans (compareKeys_lt_ge c2) (hege k' hK)
    | exact hsle k' hK
    | exact hege k' hK
    | exact compareKeys_le_refl k'
    | exact compareKeys_ge_refl k'
    | exact c1
    | exact c2

theorem tempFold_inv (bucket : List Nat) (keys : List (List Nat)) :
    ∀ (t0 : BucketMeta) (K0 : List (List Nat)), MetaInv t0 K0 →
    ∃ t, keys.foldl (fun t k => some (buildTempBucketMetaIdx bucket k t))
        (some t0) = some t ∧ MetaInv t (K0 ++ keys) := by
  induction keys with
  | nil =>
    intro t0 K0 h
    exact ⟨t0, rfl, by simpa using h⟩
  | cons k ks ih =>
    intro t0 K0 h
    obtain ⟨t, hf, hinv⟩ := ih (buildTempBucketMetaIdx bucket k (some t0)) (K0 ++ [k])
      (buildTempBucketMetaIdx_step bucket k t0 K0 h)
    refine ⟨t, hf, ?_⟩
    simpa [List.append_assoc] using hinv

theorem tempOfKeys_inv (bucket : List Nat) (keys : List (List Nat)) (hne : keys ≠ []) :
    ∃ t, tempOfKeys bucket keys = some t ∧ MetaInv t keys := by
  cases keys with
  | nil => exact absurd rfl hne
  | cons k ks =>
    have h0 : MetaInv (buildTempBucketMetaIdx bucket k none) [k] := by
      simp [buildTempBucketMetaIdx, MetaInv, compareKeys_le_refl, compareKeys_ge_refl]
    obtain ⟨t, hf, hinv⟩ := tempFold_inv bucket ks (buildTempBucketMetaIdx bucket k none)
      [k] h0
    exact ⟨t, by simpa [tempOfKeys] using hf, by simpa using hinv⟩

theorem buildBucketMetaIdx_new (db : DB) (bucket key : List Nat) (t : BucketMeta)
    (B : List (List Nat)) (hget : assocGet db.bucketMetas bucket = none)
    (ht : MetaInv t B) :
    ∃ m', assocGet (buildBucketMetaIdx db bucket key t).bucketMetas bucket = some m' ∧
      MetaInv m' B := by
  obtain ⟨hts, hte, htsle, htege, htss, htes⟩ := ht
  simp only [buildBucketMetaIdx, hget]
  exact ⟨_, assocGet_assocPut_self _ _ _, hts, hte, htsle, htege, rfl, rfl⟩

theorem buildBucketMetaIdx_merge (db : DB) (bucket key : List Nat) (m t : BucketMeta)
    (K B : List (List Nat)) (hget : assocGet db.bucketMetas bucket = some m)
    (hm : MetaInv m K) (ht : MetaInv t B) :
    ∃ m', assocGet (buildBucketMetaIdx db bucket key t).bucketMetas bucket = some m' ∧
      MetaInv m' (K ++ B) := by
  obtain ⟨hms, hme, hmsle, hmege, hmss, hmes⟩ := hm
  obtain ⟨hts, hte, htsle, htege, htss, htes⟩ := ht
  simp only [buildBucketMetaIdx, hget]
  by_cases c1 : compareKeys m.start t.start = .gt <;>
    by_cases c2 : compareKeys m.endK t.endK = .lt <;>
    simp only [c1, c2, reduceIte, ite_true, ite_false]
  · -- both widened
    refine ⟨_, assocGet_assocPut_self _ _ _, ?_, ?_, ?_, ?_, rfl, rfl⟩
    · exact List.mem_append_right K hts
    · exact List.mem_append_right K hte
    · intro k' hk'
      rcases List.mem_append.mp hk' with hK | hB
      · exact compareKeys_le_trans (compareKeys_gt_le c1) (hmsle k' hK)
      · exact htsle k' hB
    · intro k' hk'
      rcases List.mem_append.mp hk' with hK | hB
      · exact compareKeys_ge_trans (compareKeys_lt_ge c2) (hmege k' hK)
      · exact htege k' hB
  · -- start widened only
    refine ⟨_, assocGet_assocPut_self _ _ _, ?_, ?_, ?_, ?_, rfl, hmes⟩
    · exact List.mem_append_right K hts
    · exact List.mem_append_left B hme
    · intro k' hk'
      rcases List.mem_append.mp hk' with hK | hB
      · exact compareKeys_le_trans (compareKeys_gt_le c1) (hmsle k' hK)
      · exact htsle k' hB
    · intro k' hk'
      rcases List.mem_append.mp hk' with hK | hB
      · exact hmege k' hK
      · exact compareKeys_ge_trans c2 (htege k' hB)
  · -- end widened only
    refine ⟨_, assocGet_assocPut_self _ _ _, ?_, ?_, ?_, ?_, hmss, rfl⟩
    · exact List.mem_append_left B hms
    · exact List.mem_append_right K hte
    · intro k' hk'
      rcases List.mem_append.mp hk' with hK | hB
      · exact hmsle k' hK
      · exact compareKeys_le_trans c1 (htsle k' hB)
    · intro k' hk'
      rcases List.mem_append.mp hk' with hK | hB
      · exact compareKeys_ge_trans (compareKeys_lt_ge c2) (hmege k' hK)
      · exact htege k' hB
  · -- no widening: the cached meta already spans the batch
    refine ⟨m, hget, ?_, ?_, ?_, ?_, hmss, hmes⟩
    · exact List.mem_append_left B hms
    · exact List.mem_append_left B hme
    · intro k' hk'
      rcases List.mem_append.mp hk' with hK | hB
      · exact hmsle k' hK
      · exact compareKeys_le_trans c1 (htsle k' hB)
    · intro k' hk'
      rcases List.mem_append.mp hk' with hK | hB
      · exact hmege k' hK
      · exact compareKeys_ge_trans c2 (htege k' hB)

theorem metaBatch_new (db : DB) (bucket : List Nat) (B : List (List Nat))
    (hne : B ≠ []) (hget : assocGet db.bucketMetas bucket = none) :
    ∃ m', assocGet (metaBatch db bucket B).bucketMetas bucket = some m' ∧
      MetaInv m' B := by
  obtain ⟨t, htk, htinv⟩ := tempOfKeys_inv bucket B hne
  simp only [metaBatch, htk]
  exact buildBucketMetaIdx_new db bucket [] t B hget htinv

theorem metaBatch_merge (db : DB) (bucket : List Nat) (B : List (List Nat))
    (m : BucketMeta) (K : List (List Nat)) (hne : B ≠ [])
    (hget : assocGet db.bucketMetas bucket = some m) (hm : MetaInv m K) :
    ∃ m', assocGet (metaBatch db bucket B).bucketMetas bucket = some m' ∧
      MetaInv m' (K ++ B) := by
  obtain ⟨t, htk, htinv⟩ := tempOfKeys_inv bucket B hne
  simp only [metaBatch, htk]
  exact buildBucketMetaIdx_merge db bucket [] m t K B hget hm htinv

theorem metaRun_inv (bucket : List Nat) (batches : List (List (List Nat))) :
    ∀ (db : DB) (m : BucketMeta) (K : List (List Nat)),
      assocGet db.bucketMetas bucket = some m → MetaInv m K →
      (∀ b ∈ batches, b ≠ []) →
      ∃ m', assocGet (metaRun db bucket batches).bucketMetas bucket = some m' ∧
        MetaInv m' (K ++ batches.flatten) := by
  induction batches with
  | nil =>
    intro db m K hget hm _
    exact ⟨m, by simpa [metaRun] using hget, by simpa using hm⟩
  | cons b bs ih =>
    intro db m K hget hm hall
    obtain ⟨m1, hget1, hinv1⟩ := metaBatch_merge db bucket b m K (hall b (by simp))
      hget hm
    obtain ⟨m', hg', hi'⟩ := ih (metaBatch db bucket b) m1 (K ++ b) hget1 hinv1
      (fun x hx => hall x (by simp [hx]))
    refine ⟨m', ?_, ?_⟩
    · simpa [metaRun] using hg'
    · simpa [List.append_assoc] using hi'

/-- C9 (amended): for sequences of single-bucket commit batches, the
persisted bucket meta `{start, end}` is exactly the (min, max) under the key
order over all keys ever inserted into that bucket; and the
`bucketMeta-<bucket>` file is rewritten exactly when a commit's scratch meta
creates or widens the persisted range. The original claim fails for
multi-bucket transactions: the scratch meta mixes all buckets' keys and is
merged into the last entry's bucket only (see the counterexample). -/
theorem c9_bucket_meta_min_max :
    (∀ (db : DB) (bucket : List Nat) (batches : List (List (List Nat))),
      assocGet db.bucketMetas bucket = none → batches ≠ [] →
      (∀ b ∈ batches, b ≠ []) →
      ∃ m, assocGet (metaRun db bucket batches).bucketMetas bucket = some m ∧
        MetaInv m batches.flatten) ∧
    (∀ (db : DB) (bucket key : List Nat) (temp : BucketMeta),
      match assocGet db.bucketMetas bucket with
      | none => (buildBucketMetaIdx db bucket key temp).diskWrites =
          db.diskWrites ++ [.bucketMetaFile bucket
            ⟨temp.start.length, temp.endK.length, temp.start, temp.endK⟩]
      | some old =>
        ((buildBucketMetaIdx db bucket key temp).diskWrites ≠ db.diskWrites ↔
          (compareKeys old.start temp.start = .gt ∨
           compareKeys old.endK temp.endK = .lt))) := by
  constructor
  · intro db bucket batches hget hne hall
    cases batches with
    | nil => exact absurd rfl hne
    | cons b bs =>
      obtain ⟨m1, hget1, hinv1⟩ := metaBatch_new db bucket b (hall b (by simp)) hget
      obtain ⟨m', hg', hi'⟩ := metaRun_inv bucket bs (metaBatch db bucket b) m1 b
        hget1 hinv1 (fun x hx => hall x (by simp [hx]))
      refine ⟨m', ?_, ?_⟩
      · simpa [metaRun] using hg'
      · simpa using hi'
  · intro db bucket key temp
    cases hget : assocGet db.bucketMetas bucket with
    | none => simp [buildBucketMetaIdx, hget]
    | some old =>
      simp only [buildBucketMetaIdx, hget]
      have happ : ∀ (x : DiskWrite), db.diskWrites ++ [x] ≠ db.diskWrites := by
        intro x h
        have := congrArg List.length h
        simp at this
      by_cases c1 : compareKeys old.start temp.start = .gt <;>
        by_cases c2 : compareKeys old.endK temp.endK = .lt <;>
        simp [c1, c2, happ]

-- C9 witness (for the amended claim): two singleton batches into one bucket.
theorem c9_bucket_meta_min_max_witness :
    (∃ m, assocGet (metaRun (emptyDB optSparse) [65] [[[107]], [[108]]]).bucketMetas
        [65] = some m ∧ MetaInv m [[107], [108]]) ∧
    (match assocGet (emptyDB optSparse).bucketMetas [66] with
     | none => (buildBucketMetaIdx (emptyDB optSparse) [66] []
         ⟨1, 1, [97], [97]⟩).diskWrites =
         (emptyDB optSparse).diskWrites ++ [.bucketMetaFile [66] ⟨1, 1, [97], [97]⟩]
     | some old =>
       ((buildBucketMetaIdx (emptyDB optSparse) [66] []
           ⟨1, 1, [97], [97]⟩).diskWrites ≠ (emptyDB optSparse).diskWrites ↔
         (compareKeys old.start [97] = .gt ∨ compareKeys old.endK [97] = .lt))) :=
  ⟨c9_bucket_meta_min_max.1 (emptyDB optSparse) [65] [[[107]], [[108]]]
     (by decide) (by decide) (by decide),
   c9_bucket_meta_min_max.2 (emptyDB optSparse) [66] [] ⟨1, 1, [97], [97]⟩⟩

/-- C9 counterexample: one committed sparse-mode transaction that writes key
`[122]` into bucket `[65]` and key `[97]` into bucket `[66]`. The persisted
meta for bucket `[66]` comes out as `{start = [97], end = [122]}` although
`[122]` was never inserted into that bucket, and bucket `[65]` gets no meta
at all — the persisted meta is not the (min, max) of the keys ever inserted
into the bucket. -/
theorem c9_counterexample :
    (commit 0 txTwoBuckets).errOf = some none ∧
    ((commit 0 txTwoBuckets).dbOf).map (fun db => assocGet db.bucketMetas [66]) =
      some (some ⟨1, 1, [97], [122]⟩) ∧
    ((commit 0 txTwoBuckets).dbOf).map (fun db => assocGet db.bucketMetas [65]) =
      some none ∧
    (∀ e ∈ txTwoBuckets.pendingWrites, e.bucket = [66] → e.key ≠ [122]) := by
  decide

end NutsDB
